import Mathlib

set_option maxHeartbeats 1000000

/-! Verification of the ternary-fact index (`Structure`) and the backtracking
constraint `Solver` from the triple-store core.  Nodes are positive integers,
variables are non-positive integers, and `0` doubles as the wildcard in lookup
patterns.  The embedding mirrors `structure.cc` and `solver.cc`. -/

/-- An ordered triple of integers.  A *fact* has all positions positive; a
*constraint* has at least one non-positive (variable) position; a lookup
*pattern* has positions that are `0` (wildcard) or positive. -/
structure Triplet where
  a : Int
  b : Int
  c : Int
deriving DecidableEq, Repr

instance : Inhabited Triplet := ⟨⟨0, 0, 0⟩⟩

/-- Position access, mirroring `triplet[j]` for `j < 3`. -/
def Triplet.get (t : Triplet) : Fin 3 → Int
  | 0 => t.a
  | 1 => t.b
  | 2 => t.c

/-- All three positions are positive nodes (a legal stored fact). -/
def allPos (t : Triplet) : Prop := ∀ j : Fin 3, 0 < t.get j

/-- The pattern `p` matches the fact `f`: each position is a wildcard or agrees. -/
def pmatch (p f : Triplet) : Prop := ∀ j : Fin 3, p.get j = 0 ∨ p.get j = f.get j

lemma allPos_iff (t : Triplet) : allPos t ↔ 0 < t.a ∧ 0 < t.b ∧ 0 < t.c := by
  constructor
  · intro h; exact ⟨h 0, h 1, h 2⟩
  · rintro ⟨h1, h2, h3⟩ j
    fin_cases j <;> simpa [Triplet.get]

lemma pmatch_iff (p f : Triplet) :
    pmatch p f ↔ (p.a = 0 ∨ p.a = f.a) ∧ (p.b = 0 ∨ p.b = f.b) ∧ (p.c = 0 ∨ p.c = f.c) := by
  constructor
  · intro h; exact ⟨h 0, h 1, h 2⟩
  · rintro ⟨h1, h2, h3⟩ j
    fin_cases j <;> simpa [Triplet.get]

lemma pmatch_refl (f : Triplet) : pmatch f f := by
  intro j; right; rfl

instance (t : Triplet) : Decidable (allPos t) := by
  unfold allPos; infer_instance

instance (p f : Triplet) : Decidable (pmatch p f) := by
  unfold pmatch; infer_instance

lemma triplet_ext (s t : Triplet) (h1 : s.a = t.a) (h2 : s.b = t.b) (h3 : s.c = t.c) :
    s = t := by
  cases s; cases t; simp_all

lemma pmatch_allPos_eq (f g : Triplet) (hf : allPos f) (h : pmatch f g) : g = f := by
  refine (triplet_ext g f ?_ ?_ ?_)
  · rcases h 0 with h0 | h0
    · exact absurd h0 (by have := hf 0; simp [Triplet.get] at this ⊢; omega)
    · exact h0.symm
  · rcases h 1 with h0 | h0
    · exact absurd h0 (by have := hf 1; simp [Triplet.get] at this ⊢; omega)
    · exact h0.symm
  · rcases h 2 with h0 | h0
    · exact absurd h0 (by have := hf 2; simp [Triplet.get] at this ⊢; omega)
    · exact h0.symm

/-- The fact index: a map from bucket keys to the bucket's stored facts.
`structure.cc` keeps `facts_ : unordered_map<Triplet, vector<Triplet>>`;
an absent key behaves as the empty bucket (the `empty_` sentinel). -/
def Structure := Triplet → List Triplet

/-- A freshly constructed index: every bucket empty. -/
def Structure.empty : Structure := fun _ => []

/-- `Structure::Lookup`: return the bucket for the pattern (empty if absent). -/
def Structure.Lookup (s : Structure) (p : Triplet) : List Triplet := s p

/-- `Structure::IsTrue`: the fully-keyed bucket of the fact is non-empty. -/
def Structure.IsTrue (s : Structure) (f : Triplet) : Prop := s f ≠ []

instance (s : Structure) (f : Triplet) : Decidable (s.IsTrue f) := by
  unfold Structure.IsTrue; infer_instance

/-- `Structure::AllTrue`: every listed fact is true. -/
def Structure.AllTrue (s : Structure) (facts : List Triplet) : Prop :=
  ∀ f ∈ facts, s.IsTrue f

/-- The bucket key obtained from mask `i`: position `j` keeps `fact[j]` when bit
`j` of `i` is set and is zeroed otherwise (the loop in `AddFact`/`RemoveFact`). -/
def maskKey (i : Nat) (f : Triplet) : Triplet :=
  ⟨cond (i.testBit 0) f.a 0, cond (i.testBit 1) f.b 0, cond (i.testBit 2) f.c 0⟩

/-- Replace one bucket of the map. -/
def bucketUpdate (st : Structure) (k : Triplet) (g : List Triplet → List Triplet) : Structure :=
  fun q => if q = k then g (st q) else st q

/-- The loop body of `Structure::AddFact`: push the fact into the 8 buckets. -/
def Structure.addFactU (s : Structure) (fact : Triplet) : Structure :=
  (List.range 8).foldl (fun st i => bucketUpdate st (maskKey i fact) (fun l => l ++ [fact])) s

/-- The loop body of `Structure::RemoveFact`: erase the first occurrence of the
fact in each of the 8 buckets (`std::find` + `erase`). -/
def Structure.removeFactU (s : Structure) (fact : Triplet) : Structure :=
  (List.range 8).foldl (fun st i => bucketUpdate st (maskKey i fact) (fun l => l.erase fact)) s

/-- `Structure::AddFact` with its `assert(!IsTrue(fact))`: `none` models the
abort on a duplicate add. -/
def Structure.AddFact (s : Structure) (fact : Triplet) : Option Structure :=
  if s.IsTrue fact then none else some (s.addFactU fact)

/-- `Structure::RemoveFact` with its `assert(IsTrue(fact))`: `none` models the
abort on an absent remove. -/
def Structure.RemoveFact (s : Structure) (fact : Triplet) : Option Structure :=
  if s.IsTrue fact then some (s.removeFactU fact) else none

/-- The 8 bucket keys of a fact, in mask order. -/
def maskKeys (f : Triplet) : List Triplet := (List.range 8).map (fun i => maskKey i f)

lemma foldl_maskKey_apply (g : List Triplet → List Triplet) (f : Triplet) (is : List Nat)
    (s : Structure) (k : Triplet) :
    (is.foldl (fun st i => bucketUpdate st (maskKey i f) g) s) k
      = g^[(is.map (fun i => maskKey i f)).count k] (s k) := by
  induction is generalizing s with
  | nil => rfl
  | cons i is ih =>
    rw [List.foldl_cons, ih, List.map_cons]
    by_cases h : maskKey i f = k
    · rw [h, List.count_cons_self, Function.iterate_succ_apply]
      simp [bucketUpdate]
    · rw [List.count_cons_of_ne (fun hh => h hh.symm), bucketUpdate,
        if_neg (fun hh => h hh.symm)]

lemma addFactU_apply (s : Structure) (f k : Triplet) :
    (s.addFactU f) k = (fun l => l ++ [f])^[(maskKeys f).count k] (s k) :=
  foldl_maskKey_apply _ f (List.range 8) s k

lemma removeFactU_apply (s : Structure) (f k : Triplet) :
    (s.removeFactU f) k = (fun l => l.erase f)^[(maskKeys f).count k] (s k) :=
  foldl_maskKey_apply _ f (List.range 8) s k

lemma maskKeys_expand (f : Triplet) :
    maskKeys f = [⟨0, 0, 0⟩, ⟨f.a, 0, 0⟩, ⟨0, f.b, 0⟩, ⟨f.a, f.b, 0⟩,
                  ⟨0, 0, f.c⟩, ⟨f.a, 0, f.c⟩, ⟨0, f.b, f.c⟩, ⟨f.a, f.b, f.c⟩] := rfl

lemma maskKeys_count (f k : Triplet) (hf : allPos f) :
    (maskKeys f).count k = if pmatch k f then 1 else 0 := by
  obtain ⟨ka, kb, kc⟩ := k
  rw [allPos_iff] at hf
  rw [maskKeys_expand]
  simp only [pmatch_iff, List.count_cons, List.count_nil, beq_iff_eq, Triplet.mk.injEq]
  split_ifs <;> omega

lemma addFactU_bucket (s : Structure) (f k : Triplet) (hf : allPos f) :
    (s.addFactU f) k = if pmatch k f then s k ++ [f] else s k := by
  rw [addFactU_apply, maskKeys_count f k hf]
  split_ifs <;> simp

lemma removeFactU_bucket (s : Structure) (f k : Triplet) (hf : allPos f) :
    (s.removeFactU f) k = if pmatch k f then (s k).erase f else s k := by
  rw [removeFactU_apply, maskKeys_count f k hf]
  split_ifs <;> simp

lemma maskKey_seven (f : Triplet) : maskKey 7 f = f := rfl

lemma mem_addFactU_self (s : Structure) (f : Triplet) : f ∈ (s.addFactU f) f := by
  rw [addFactU_apply]
  have hmem : f ∈ maskKeys f := by
    unfold maskKeys
    exact List.mem_map.mpr ⟨7, by simp, maskKey_seven f⟩
  have hpos : 0 < (maskKeys f).count f := List.count_pos_iff.mpr hmem
  obtain ⟨n, hn⟩ : ∃ n, (maskKeys f).count f = n + 1 :=
    ⟨(maskKeys f).count f - 1, by omega⟩
  rw [hn, Function.iterate_succ_apply']
  simp

/-- One mutation of the fact index. -/
inductive Op where
  | add (fact : Triplet)
  | remove (fact : Triplet)
deriving DecidableEq, Repr

/-- Boolean check that a sequence of mutations respects the preconditions of
`AddFact`/`RemoveFact`: added facts are all-positive and not yet present,
removed facts are present.  `cur` is the reference set of present facts. -/
def validOpsB : List Op → List Triplet → Bool
  | [], _ => true
  | Op.add f :: rest, cur =>
      decide (allPos f) && decide (f ∉ cur) && validOpsB rest (f :: cur)
  | Op.remove f :: rest, cur =>
      decide (f ∈ cur) && validOpsB rest (cur.erase f)

/-- Propositional form of `validOpsB`. -/
def validOps (ops : List Op) (cur : List Triplet) : Prop := validOpsB ops cur = true

instance (ops : List Op) (cur : List Triplet) : Decidable (validOps ops cur) := by
  unfold validOps; infer_instance

/-- The reference set of facts present after running the mutations. -/
def refList : List Op → List Triplet → List Triplet
  | [], cur => cur
  | Op.add f :: rest, cur => refList rest (f :: cur)
  | Op.remove f :: rest, cur => refList rest (cur.erase f)

/-- Run a sequence of mutations against the index; `none` models an abort of
one of the asserts. -/
def Structure.runOps : List Op → Structure → Option Structure
  | [], s => some s
  | Op.add f :: rest, s =>
      match s.AddFact f with
      | none => none
      | some s' => Structure.runOps rest s'
  | Op.remove f :: rest, s =>
      match s.RemoveFact f with
      | none => none
      | some s' => Structure.runOps rest s'

/-- The bucket invariant tying the index to the reference set `cur`: every
bucket `k` holds exactly one copy of each present fact matching `k`. -/
def StructInv (s : Structure) (cur : List Triplet) : Prop :=
  (∀ f ∈ cur, allPos f) ∧ cur.Nodup ∧
    ∀ k f : Triplet, (s k).count f = if f ∈ cur ∧ pmatch k f then 1 else 0

lemma count_zero_eq_nil (l : List Triplet) (h : ∀ a, l.count a = 0) : l = [] := by
  cases l with
  | nil => rfl
  | cons x xs =>
    have := h x
    rw [List.count_cons_self] at this
    omega

lemma StructInv.isTrue_iff {s : Structure} {cur : List Triplet} (h : StructInv s cur)
    (f : Triplet) (hf : allPos f) : s.IsTrue f ↔ f ∈ cur := by
  obtain ⟨hpos, hnd, hcount⟩ := h
  constructor
  · intro htrue
    by_contra hmem
    refine htrue (count_zero_eq_nil _ (fun g => ?_))
    rw [hcount f g]
    by_cases hgf : g ∈ cur ∧ pmatch f g
    · exact absurd (pmatch_allPos_eq f g hf hgf.2 ▸ hgf.1) hmem
    · simp [hgf]
  · intro hmem hnil
    have := hcount f f
    rw [hnil] at this
    simp [hmem, pmatch_refl] at this

lemma ite_mem_cons (g f : Triplet) (cur : List Triplet) (P : Prop) [Decidable P]
    (hgf : g ≠ f) :
    (if g ∈ f :: cur ∧ P then 1 else 0) = (if g ∈ cur ∧ P then 1 else 0) := by
  by_cases h : g ∈ cur ∧ P
  · simp [h.1, h.2, List.mem_cons]
  · have h2 : ¬ (g ∈ f :: cur ∧ P) := by
      rintro ⟨hm, hp⟩
      rcases List.mem_cons.mp hm with rfl | hm2
      · exact hgf rfl
      · exact h ⟨hm2, hp⟩
    rw [if_neg h2, if_neg h]

lemma ite_mem_erase (g f : Triplet) (cur : List Triplet) (P : Prop) [Decidable P]
    (hnd : cur.Nodup) (hgf : g ≠ f) :
    (if g ∈ cur.erase f ∧ P then 1 else 0) = (if g ∈ cur ∧ P then 1 else 0) := by
  by_cases h : g ∈ cur ∧ P
  · simp [hnd.mem_erase_iff.mpr ⟨hgf, h.1⟩, h.2, h.1]
  · have h2 : ¬ (g ∈ cur.erase f ∧ P) := by
      rintro ⟨hm, hp⟩
      exact h ⟨List.mem_of_mem_erase hm, hp⟩
    rw [if_neg h2, if_neg h]

lemma StructInv.addStep {s : Structure} {cur : List Triplet} (h : StructInv s cur)
    (f : Triplet) (hf : allPos f) (hmem : f ∉ cur) :
    s.AddFact f = some (s.addFactU f) ∧ StructInv (s.addFactU f) (f :: cur) := by
  obtain ⟨hpos, hnd, hcount⟩ := h
  have hnt : ¬ s.IsTrue f := fun ht =>
    hmem ((StructInv.isTrue_iff ⟨hpos, hnd, hcount⟩ f hf).mp ht)
  refine ⟨by simp [Structure.AddFact, hnt], ?_, List.nodup_cons.mpr ⟨hmem, hnd⟩, ?_⟩
  · intro g hg
    rcases List.mem_cons.mp hg with rfl | hg
    · exact hf
    · exact hpos g hg
  · intro k g
    rw [addFactU_bucket s f k hf]
    by_cases hgf : g = f
    · subst hgf
      by_cases hm : pmatch k g
      · rw [if_pos hm, List.count_append, hcount k g]
        simp [hmem, hm, List.mem_cons, List.count_cons, List.count_nil]
      · rw [if_neg hm, hcount k g]
        simp [hmem, hm]
    · have hstep : (if g ∈ f :: cur ∧ pmatch k g then 1 else 0)
          = (if g ∈ cur ∧ pmatch k g then 1 else 0) :=
        ite_mem_cons g f cur _ hgf
      by_cases hm : pmatch k f
      · rw [if_pos hm, List.count_append, hcount k g, hstep]
        simp [List.count_cons, List.count_nil, hgf]
      · rw [if_neg hm, hcount k g, hstep]

lemma StructInv.removeStep {s : Structure} {cur : List Triplet} (h : StructInv s cur)
    (f : Triplet) (hmem : f ∈ cur) :
    s.RemoveFact f = some (s.removeFactU f) ∧ StructInv (s.removeFactU f) (cur.erase f) := by
  obtain ⟨hpos, hnd, hcount⟩ := h
  have hf : allPos f := hpos f hmem
  have ht : s.IsTrue f := (StructInv.isTrue_iff ⟨hpos, hnd, hcount⟩ f hf).mpr hmem
  refine ⟨by simp [Structure.RemoveFact, ht], ?_, hnd.erase f, ?_⟩
  · intro g hg
    exact hpos g (List.mem_of_mem_erase hg)
  · intro k g
    rw [removeFactU_bucket s f k hf]
    by_cases hgf : g = f
    · subst hgf
      have hnm : g ∉ cur.erase g := fun hc => (hnd.mem_erase_iff.mp hc).1 rfl
      by_cases hm : pmatch k g
      · rw [if_pos hm, List.count_erase, hcount k g]
        simp [hmem, hm, hnm]
      · rw [if_neg hm, hcount k g]
        simp [hm]
    · have hstep : (if g ∈ cur.erase f ∧ pmatch k g then 1 else 0)
          = (if g ∈ cur ∧ pmatch k g then 1 else 0) :=
        ite_mem_erase g f cur _ hnd hgf
      by_cases hm : pmatch k f
      · rw [if_pos hm, List.count_erase, hcount k g, hstep]
        have hfg : ¬ f = g := fun hh => hgf hh.symm
        simp [hfg]
      · rw [if_neg hm, hcount k g, hstep]

lemma runOps_inv (ops : List Op) : ∀ (s : Structure) (cur : List Triplet),
    validOps ops cur → StructInv s cur →
    ∃ s', Structure.runOps ops s = some s' ∧ StructInv s' (refList ops cur) := by
  induction ops with
  | nil => exact fun s cur _ h => ⟨s, rfl, h⟩
  | cons op rest ih =>
    intro s cur hv hinv
    cases op with
    | add f =>
      have hv' : (decide (allPos f) && decide (f ∉ cur) && validOpsB rest (f :: cur)) = true := hv
      simp only [Bool.and_eq_true, decide_eq_true_eq] at hv'
      obtain ⟨⟨hf, hmem⟩, hrest⟩ := hv'
      obtain ⟨heq, hinv'⟩ := hinv.addStep f hf hmem
      obtain ⟨s', hs', hinvFinal⟩ := ih _ (f :: cur) hrest hinv'
      exact ⟨s', by simpa [Structure.runOps, heq] using hs', hinvFinal⟩
    | remove f =>
      have hv' : (decide (f ∈ cur) && validOpsB rest (cur.erase f)) = true := hv
      simp only [Bool.and_eq_true, decide_eq_true_eq] at hv'
      obtain ⟨hmem, hrest⟩ := hv'
      obtain ⟨heq, hinv'⟩ := hinv.removeStep f hmem
      obtain ⟨s', hs', hinvFinal⟩ := ih _ (cur.erase f) hrest hinv'
      exact ⟨s', by simpa [Structure.runOps, heq] using hs', hinvFinal⟩

lemma structInv_empty : StructInv Structure.empty [] := by
  refine ⟨by simp, List.nodup_nil, ?_⟩
  intro k f
  simp [Structure.empty]

lemma option_eq_some_getD {α : Type} (o : Option α) (d : α) (h : o.isSome = true) :
    o = some (o.getD d) := by
  cases o with
  | none => simp at h
  | some a => rfl

/-- Well-formedness of a fact index reachable by valid mutations: every bucket
member matches the bucket key, is all-positive, and is a true fact. -/
def WFStruct (s : Structure) : Prop :=
  ∀ k f : Triplet, f ∈ s k → pmatch k f ∧ allPos f ∧ s.IsTrue f

lemma structInv_WFStruct {s : Structure} {cur : List Triplet} (h : StructInv s cur) :
    WFStruct s := by
  obtain ⟨hpos, hnd, hcount⟩ := h
  intro k f hf
  have hc : 0 < (s k).count f := List.count_pos_iff.mpr hf
  rw [hcount k f] at hc
  by_cases hin : f ∈ cur ∧ pmatch k f
  · refine ⟨hin.2, hpos f hin.1, ?_⟩
    have h1 : (s f).count f = 1 := by rw [hcount f f]; simp [hin.1, pmatch_refl]
    intro hnil
    rw [hnil] at h1
    simp at h1
  · simp [hin] at hc

lemma runOps_WFStruct {ops : List Op} {st : Structure} (hops : validOps ops [])
    (hrun : Structure.runOps ops Structure.empty = some st) : WFStruct st := by
  obtain ⟨s', hs', hinv⟩ := runOps_inv ops Structure.empty [] hops structInv_empty
  rw [hrun] at hs'
  cases hs'
  exact structInv_WFStruct hinv

/-- C3: FactIndex lookup correctness.  After any valid sequence of
`AddFact`/`RemoveFact` calls (all positions positive, no duplicate add, no
absent remove), `Lookup p` for a pattern whose positions are each `0` or
positive contains exactly the currently-present facts `f` with
`p[j] = 0 ∨ p[j] = f[j]` at every position `j`. -/
theorem c3_factindex_lookup_correct (ops : List Op) (hops : validOps ops [])
    (st : Structure) (hrun : Structure.runOps ops Structure.empty = some st)
    (p : Triplet) (hp : ∀ j : Fin 3, p.get j = 0 ∨ 0 < p.get j) (f : Triplet) :
    f ∈ st.Lookup p ↔ (f ∈ refList ops [] ∧ ∀ j : Fin 3, p.get j = 0 ∨ p.get j = f.get j) := by
  obtain ⟨s', hs', hinv⟩ := runOps_inv ops Structure.empty [] hops structInv_empty
  rw [hrun] at hs'
  cases hs'
  obtain ⟨hpos, hnd, hcount⟩ := hinv
  have hmem : f ∈ st.Lookup p ↔ 0 < (st p).count f := (List.count_pos_iff).symm
  rw [hmem, hcount p f]
  by_cases hin : f ∈ refList ops [] ∧ pmatch p f
  · simp [hin, hin.1, hin.2]
    exact hin.2
  · rw [if_neg hin]
    simp only [Nat.lt_irrefl, false_iff]
    intro hc
    exact hin ⟨hc.1, hc.2⟩

/-- Witness for C3 on a concrete mutation sequence: add (1,2,3) and (1,2,4),
remove (1,2,3), then look up the pattern (1,2,0) and test (1,2,4). -/
theorem c3_witness :
    validOps [Op.add ⟨1, 2, 3⟩, Op.add ⟨1, 2, 4⟩, Op.remove ⟨1, 2, 3⟩] [] ∧
    ((⟨1, 2, 4⟩ : Triplet) ∈
        (Structure.Lookup
          ((Structure.runOps [Op.add ⟨1, 2, 3⟩, Op.add ⟨1, 2, 4⟩, Op.remove ⟨1, 2, 3⟩]
              Structure.empty).getD Structure.empty) ⟨1, 2, 0⟩) ↔
      ((⟨1, 2, 4⟩ : Triplet) ∈ refList [Op.add ⟨1, 2, 3⟩, Op.add ⟨1, 2, 4⟩, Op.remove ⟨1, 2, 3⟩] [] ∧
        ∀ j : Fin 3, (⟨1, 2, 0⟩ : Triplet).get j = 0 ∨
          (⟨1, 2, 0⟩ : Triplet).get j = (⟨1, 2, 4⟩ : Triplet).get j)) :=
  ⟨by decide,
   c3_factindex_lookup_correct _ (by decide) _
     (option_eq_some_getD _ Structure.empty (by decide)) _ (by decide) _⟩

/-- C10: `AddFact` performs no positivity validation.  Adding a not-yet-present
triplet with a zero or negative position does not abort (the only assert is
against duplicates); the triplet is inserted and `IsTrue` then holds for it. -/
theorem c10_addfact_no_positivity_validation (s : Structure) (f : Triplet)
    (hbad : ∃ j : Fin 3, f.get j ≤ 0) (habs : ¬ s.IsTrue f) :
    s.AddFact f = some (s.addFactU f) ∧ (s.addFactU f).IsTrue f ∧
      f ∈ (s.addFactU f).Lookup f := by
  refine ⟨by simp [Structure.AddFact, habs], ?_, mem_addFactU_self s f⟩
  have hm := mem_addFactU_self s f
  intro hnil
  rw [hnil] at hm
  exact List.not_mem_nil _ hm

/-- Witness for C10: adding (0,2,3), which has a zero position, to the empty
index succeeds and makes the triplet true. -/
theorem c10_witness :
    (∃ j : Fin 3, (⟨0, 2, 3⟩ : Triplet).get j ≤ 0) ∧
    (¬ Structure.empty.IsTrue ⟨0, 2, 3⟩) ∧
    (Structure.empty.AddFact ⟨0, 2, 3⟩ = some (Structure.empty.addFactU ⟨0, 2, 3⟩) ∧
      (Structure.empty.addFactU ⟨0, 2, 3⟩).IsTrue ⟨0, 2, 3⟩ ∧
      (⟨0, 2, 3⟩ : Triplet) ∈ (Structure.empty.addFactU ⟨0, 2, 3⟩).Lookup ⟨0, 2, 3⟩) :=
  ⟨⟨0, by decide⟩, by decide,
   c10_addfact_no_positivity_validation _ _ ⟨0, by decide⟩ (by decide)⟩

/-- A node or variable position is a variable when non-positive
(`Solver::IsVariable`). -/
def IsVariable (node : Int) : Prop := node ≤ 0

instance (node : Int) : Decidable (IsVariable node) := by
  unfold IsVariable; infer_instance

/-- Per-variable search state (`Solver::State`): the candidate domain in the
ascending order of `std::set<Node>`, and the cursor `options_it` as an index. -/
structure SolverState where
  options : List Int
  options_it : Nat
deriving DecidableEq, Repr

instance : Inhabited SolverState := ⟨⟨[], 0⟩⟩

/-- The solver object, with the fields of `class Solver`.  `current_index_` is
the negated current variable, an `int` that can reach `-1` on final backtrack. -/
structure Solver where
  structure_ : Structure
  n_variables : Nat
  valid_ : Bool
  constraints_ : List Triplet
  working_constraints_ : List Triplet
  var_to_constraints_ : List (List Nat)
  may_equal_ : List (List Nat)
  assignment_ : List Int
  states_ : List SolverState
  current_index_ : Int

/-- `Solver::CurrentVariable`. -/
def Solver.CurrentVariable (s : Solver) : Int := -s.current_index_

/-- Substitute `to` for every position equal to `var` (the inner loop of
`Solver::Assign` on one working constraint). -/
def substVar (var v : Int) (t : Triplet) : Triplet :=
  ⟨if t.a = var then v else t.a, if t.b = var then v else t.b, if t.c = var then v else t.c⟩

/-- Restore positions where the original constraint holds `var` (the inner loop
of `Solver::UnAssign` on one working constraint). -/
def restoreVar (var : Int) (orig w : Triplet) : Triplet :=
  ⟨if orig.a = var then orig.a else w.a, if orig.b = var then orig.b else w.b,
   if orig.c = var then orig.c else w.c⟩

/-- `Solver::Assign`: record the assignment, substitute into the working copies
of all constraints mentioning the current variable, and descend. -/
def Solver.Assign (s : Solver) (v : Int) : Solver :=
  let var := s.CurrentVariable
  let ci := s.current_index_.toNat
  { s with
    assignment_ := s.assignment_.set ci v,
    working_constraints_ :=
      (s.var_to_constraints_.getD ci []).foldl
        (fun wcs i => wcs.set i (substVar var v (wcs.getD i ⟨0, 0, 0⟩)))
        s.working_constraints_,
    current_index_ := s.current_index_ + 1 }

/-- `Solver::UnAssign`: retreat; if still at a variable, restore its encoding
in the working copies of all constraints mentioning it. -/
def Solver.UnAssign (s : Solver) : Solver :=
  let s' := { s with current_index_ := s.current_index_ - 1 }
  if s'.current_index_ < 0 then s'
  else
    let k := s'.current_index_.toNat
    let var := s'.CurrentVariable
    { s' with
      working_constraints_ :=
        (s.var_to_constraints_.getD k []).foldl
          (fun wcs i =>
            wcs.set i (restoreVar var (s.constraints_.getD i ⟨0, 0, 0⟩)
              (wcs.getD i ⟨0, 0, 0⟩)))
          s.working_constraints_ }

/-- The `choice` loop of `Solver::GetOptions` over the pairs
`(hole_is_var[j], triplet[j])`, with its break-to-zero on disagreement. -/
def chooseLoop : Int → List (Bool × Int) → Int
  | choice, [] => choice
  | choice, (hole, x) :: rest =>
    if hole = false then chooseLoop choice rest
    else if choice = 0 then chooseLoop x rest
    else if choice = x then chooseLoop choice rest
    else 0

/-- The candidate node induced by one matching fact. -/
def choiceOf (hole : Fin 3 → Bool) (t : Triplet) : Int :=
  chooseLoop 0 [(hole 0, t.get 0), (hole 1, t.get 1), (hole 2, t.get 2)]

/-- Zero out the variable positions of a working constraint to form the lookup
pattern (step (1) of `Solver::GetOptions`). -/
def emptiedOf (wc : Triplet) : Triplet :=
  ⟨if IsVariable wc.a then 0 else wc.a, if IsVariable wc.b then 0 else wc.b,
   if IsVariable wc.c then 0 else wc.c⟩

/-- Which positions of the working constraint hold the current variable. -/
def holesOf (wc : Triplet) (var : Int) : Fin 3 → Bool := fun j => decide (wc.get j = var)

/-- Ordered insertion into a `std::set<Node>` modelled as a sorted list. -/
def insertSorted (v : Int) : List Int → List Int
  | [] => [v]
  | x :: xs => if v < x then v :: x :: xs else if v = x then x :: xs else x :: insertSorted v xs

/-- The `local_options` computation for one constraint (step (2) of
`Solver::GetOptions`): each matching fact with a consistent positive choice
contributes, already intersected with the running `options`. -/
def Solver.localOptions (struc : Structure) (wc : Triplet) (var : Int)
    (initialized : Bool) (options : List Int) : List Int :=
  (struc.Lookup (emptiedOf wc)).foldl
    (fun lo t =>
      let choice := choiceOf (holesOf wc var) t
      if 0 < choice ∧ (initialized = false ∨ choice ∈ options) then insertSorted choice lo
      else lo)
    []

/-- The constraint loop of `Solver::GetOptions`: running intersection with an
early break once empty.  With no constraints the (stale) `options` survive. -/
def Solver.getOptionsLoop (struc : Structure) (wcs : List Triplet) (var : Int) :
    List Nat → Bool → List Int → List Int
  | [], _, options => options
  | i :: rest, initialized, options =>
    let lo := Solver.localOptions struc (wcs.getD i ⟨0, 0, 0⟩) var initialized options
    if lo = [] then lo
    else Solver.getOptionsLoop struc wcs var rest true lo

/-- The inequality filter (step (3) of `Solver::GetOptions`): drop the node
assigned to each earlier variable not in the current `may_equal` set. -/
def Solver.ineqFilter (options : List Int) (asg : List Int) (me : List Nat) (ci : Nat) :
    List Int :=
  (List.range ci).foldl
    (fun opts i =>
      if asg.getD i 0 ∈ opts ∧ i ∉ me then opts.erase (asg.getD i 0) else opts)
    options

/-- `Solver::GetOptions`: recompute the candidate domain of the current
variable and reset its cursor. -/
def Solver.GetOptions (s : Solver) : Solver :=
  if s.current_index_ ≥ (s.n_variables : Int) ∨ s.current_index_ < 0 then s
  else
    let var := s.CurrentVariable
    let ci := s.current_index_.toNat
    let options0 := (s.states_.getD ci default).options
    let options1 := Solver.getOptionsLoop s.structure_ s.working_constraints_ var
        (s.var_to_constraints_.getD ci []) false options0
    let options2 := Solver.ineqFilter options1 s.assignment_ (s.may_equal_.getD ci []) ci
    { s with states_ := s.states_.set ci ⟨options2, 0⟩ }

/-- The per-constraint registration loop of the constructor: for each variable
position, record the index the constraint will get in `constraints_`; abort
(`none`, modelling `.at` out-of-range) when a variable index is not below `n`. -/
def Solver.registerLoop (n : Nat) (c : Triplet) (keptLen : Nat) :
    List (Fin 3) → Bool → List (List Nat) → Option (Bool × List (List Nat))
  | [], any, vtc => some (any, vtc)
  | j :: rest, any, vtc =>
    let x := c.get j
    if IsVariable x then
      if (-x).toNat < n then
        Solver.registerLoop n c keptLen rest true
          (vtc.set (-x).toNat (vtc.getD (-x).toNat [] ++ [keptLen]))
      else none
    else Solver.registerLoop n c keptLen rest any vtc

/-- The constructor's constraint loop: parametric constraints are kept, a false
ground constraint invalidates the instance and stops the loop. -/
def Solver.buildLoop (struc : Structure) (n : Nat) :
    List Triplet → List Triplet → List (List Nat) →
      Option (Bool × List Triplet × List (List Nat))
  | [], kept, vtc => some (true, kept, vtc)
  | c :: rest, kept, vtc =>
    match Solver.registerLoop n c kept.length [0, 1, 2] false vtc with
    | none => none
    | some (any, vtc') =>
      if any then Solver.buildLoop struc n rest (kept ++ [c]) vtc'
      else if ¬ struc.IsTrue c then some (false, kept, vtc')
      else Solver.buildLoop struc n rest kept vtc'

/-- The `Solver` constructor.  `none` models an abort: the `assert(n > 0)` or
an out-of-range variable index.  When the instance is valid the working copies
are initialized and `GetOptions` seeds the domain of variable 0. -/
def Solver.make (struc : Structure) (n : Nat) (cs : List Triplet)
    (me : List (List Nat)) : Option Solver :=
  if n = 0 then none
  else
    match Solver.buildLoop struc n cs [] (List.replicate n []) with
    | none => none
    | some (valid, kept, vtc) =>
      let s : Solver :=
        ⟨struc, n, valid, kept, if valid then kept else [], vtc, me,
         List.replicate n 0, List.replicate n default, 0⟩
      some (if valid then s.GetOptions else s)

/-- Advance the cursor of level `ci` (the `state.options_it++` step). -/
def Solver.bumpCursor (s : Solver) (ci : Nat) : Solver :=
  let st := s.states_.getD ci default
  { s with states_ := s.states_.set ci ⟨st.options, st.options_it + 1⟩ }

/-- The loop of `Solver::NextAssignment`, indexed by fuel.  `none` means the
fuel ran out (the C++ loop would keep going); `some []` is the genuine empty
result; `some a` with `a ≠ []` is a produced assignment. -/
def Solver.nextAssignmentLoop : Nat → Solver → Option (List Int) × Solver
  | 0, s => (none, s)
  | fuel + 1, s =>
    if s.current_index_ < 0 then (some [], { s with valid_ := false })
    else
      let ci := s.current_index_.toNat
      let st := s.states_.getD ci default
      if st.options.length ≤ st.options_it then
        Solver.nextAssignmentLoop fuel s.UnAssign
      else
        let v := st.options.getD st.options_it 0
        let s1 := (s.Assign v).bumpCursor ci
        if s1.current_index_ = (s1.n_variables : Int) then
          (some s1.assignment_, s1.UnAssign)
        else
          Solver.nextAssignmentLoop fuel s1.GetOptions

/-- `Solver::NextAssignment`: short-circuit on an invalid or trivial instance,
otherwise run the search loop. -/
def Solver.NextAssignment (fuel : Nat) (s : Solver) : Option (List Int) × Solver :=
  if s.valid_ = false ∨ s.n_variables = 0 then (some [], s)
  else Solver.nextAssignmentLoop fuel s

/-- Iterate `NextAssignment`, keeping only the final state. -/
def Solver.runCalls : List Nat → Solver → Solver
  | [], s => s
  | fuel :: rest, s => Solver.runCalls rest (Solver.NextAssignment fuel s).2

/-- Substitute a complete assignment into a constraint: position holding the
variable encoding `-k` receives `a[k]`. -/
def substFull (a : List Int) (t : Triplet) : Triplet :=
  ⟨if t.a ≤ 0 then a.getD (-t.a).toNat 0 else t.a,
   if t.b ≤ 0 then a.getD (-t.b).toNat 0 else t.b,
   if t.c ≤ 0 then a.getD (-t.c).toNat 0 else t.c⟩

lemma getD_set_self {α : Type} (l : List α) (i : Nat) (x d : α) (h : i < l.length) :
    (l.set i x).getD i d = x := by
  rw [List.getD_eq_getElem?_getD, List.getElem?_set_self h]
  rfl

lemma getD_set_ne {α : Type} (l : List α) (i j : Nat) (x d : α) (h : i ≠ j) :
    (l.set i x).getD j d = l.getD j d := by
  rw [List.getD_eq_getElem?_getD, List.getElem?_set_ne h, ← List.getD_eq_getElem?_getD]

lemma getD_mem {α : Type} (l : List α) (n : Nat) (d : α) (h : n < l.length) :
    l.getD n d ∈ l := by
  rw [List.getD_eq_getElem l d h]
  exact List.getElem_mem h

lemma mem_insertSorted (v : Int) (l : List Int) (x : Int) :
    x ∈ insertSorted v l ↔ x = v ∨ x ∈ l := by
  induction l with
  | nil => simp [insertSorted]
  | cons y ys ih =>
    unfold insertSorted
    split_ifs with h1 h2
    · simp only [List.mem_cons]
    · subst h2
      simp only [List.mem_cons]
      tauto
    · simp only [List.mem_cons, ih]
      tauto

lemma pairwise_insertSorted (v : Int) (l : List Int) (h : l.Pairwise (· < ·)) :
    (insertSorted v l).Pairwise (· < ·) := by
  induction l with
  | nil => simp [insertSorted]
  | cons y ys ih =>
    rw [List.pairwise_cons] at h
    obtain ⟨hy, hys⟩ := h
    unfold insertSorted
    split_ifs with h1 h2
    · rw [List.pairwise_cons]
      refine ⟨?_, List.pairwise_cons.mpr ⟨hy, hys⟩⟩
      intro z hz
      rcases List.mem_cons.mp hz with rfl | hz2
      · exact h1
      · exact lt_trans h1 (hy z hz2)
    · exact List.pairwise_cons.mpr ⟨hy, hys⟩
    · rw [List.pairwise_cons]
      refine ⟨?_, ih hys⟩
      intro z hz
      rcases (mem_insertSorted v ys z).mp hz with rfl | hz2
      · omega
      · exact hy z hz2

lemma pairwise_lt_nodup (l : List Int) (h : l.Pairwise (· < ·)) : l.Nodup :=
  h.imp (fun hlt => ne_of_lt hlt)

lemma chooseLoop_spec (pairs : List (Bool × Int)) (c v : Int)
    (hpos : ∀ p ∈ pairs, p.1 = true → 0 < p.2) (hc : 0 ≤ c)
    (h : chooseLoop c pairs = v) (hv : 0 < v) :
    (∀ p ∈ pairs, p.1 = true → p.2 = v) ∧ (c = 0 ∨ c = v) := by
  induction pairs generalizing c with
  | nil =>
    rw [chooseLoop] at h
    exact ⟨by simp, Or.inr h⟩
  | cons p rest ih =>
    obtain ⟨hole, x⟩ := p
    rw [chooseLoop] at h
    by_cases hh : hole = false
    · rw [if_pos hh] at h
      obtain ⟨hrest, hcv⟩ := ih c (fun q hq => hpos q (List.mem_cons_of_mem _ hq)) hc h
      refine ⟨?_, hcv⟩
      intro q hq hqt
      rcases List.mem_cons.mp hq with rfl | hq2
      · rw [hh] at hqt
        cases hqt
      · exact hrest q hq2 hqt
    · rw [if_neg hh] at h
      have hxpos : 0 < x := hpos (hole, x) (List.mem_cons_self _ _) (by
        cases hole
        · exact absurd rfl hh
        · rfl)
      by_cases hc0 : c = 0
      · rw [if_pos hc0] at h
        obtain ⟨hrest, hxv⟩ := ih x (fun q hq => hpos q (List.mem_cons_of_mem _ hq))
          (le_of_lt hxpos) h
        have hxveq : x = v := by
          rcases hxv with h0 | h0
          · omega
          · exact h0
        refine ⟨?_, Or.inl hc0⟩
        intro q hq hqt
        rcases List.mem_cons.mp hq with rfl | hq2
        · exact hxveq
        · exact hrest q hq2 hqt
      · rw [if_neg hc0] at h
        by_cases hcx : c = x
        · rw [if_pos hcx] at h
          obtain ⟨hrest, hcv⟩ := ih c (fun q hq => hpos q (List.mem_cons_of_mem _ hq)) hc h
          have hcveq : c = v := by
            rcases hcv with h0 | h0
            · exact absurd h0 hc0
            · exact h0
          refine ⟨?_, Or.inr hcveq⟩
          intro q hq hqt
          rcases List.mem_cons.mp hq with rfl | hq2
          · omega
          · exact hrest q hq2 hqt
        · rw [if_neg hcx] at h
          omega

lemma choiceOf_spec (hole : Fin 3 → Bool) (t : Triplet) (v : Int)
    (hpos : ∀ j : Fin 3, hole j = true → 0 < t.get j)
    (h : choiceOf hole t = v) (hv : 0 < v) :
    ∀ j : Fin 3, hole j = true → t.get j = v := by
  unfold choiceOf at h
  have hmain := chooseLoop_spec [(hole 0, t.get 0), (hole 1, t.get 1), (hole 2, t.get 2)] 0 v
    ?_ le_rfl h hv
  · intro j hj
    fin_cases j
    · exact hmain.1 (hole 0, t.get 0) (by simp) hj
    · exact hmain.1 (hole 1, t.get 1) (by simp) hj
    · exact hmain.1 (hole 2, t.get 2) (by simp) hj
  · intro q hq hqt
    simp only [List.mem_cons, List.not_mem_nil, or_false] at hq
    rcases hq with rfl | rfl | rfl
    · exact hpos 0 hqt
    · exact hpos 1 hqt
    · exact hpos 2 hqt

lemma localOptions_mem (struc : Structure) (wc : Triplet) (var : Int) (initialized : Bool)
    (options : List Int) (x : Int)
    (h : x ∈ Solver.localOptions struc wc var initialized options) :
    (∃ t ∈ struc.Lookup (emptiedOf wc), choiceOf (holesOf wc var) t = x) ∧ 0 < x ∧
      (initialized = true → x ∈ options) := by
  have haux : ∀ (ts : List Triplet) (acc : List Int),
      x ∈ ts.foldl (fun lo t =>
        let choice := choiceOf (holesOf wc var) t
        if 0 < choice ∧ (initialized = false ∨ choice ∈ options) then insertSorted choice lo
        else lo) acc →
      (x ∈ acc) ∨ ((∃ t ∈ ts, choiceOf (holesOf wc var) t = x) ∧ 0 < x ∧
        (initialized = true → x ∈ options)) := by
    intro ts
    induction ts with
    | nil => exact fun acc h' => Or.inl h'
    | cons t ts ih =>
      intro acc h'
      rw [List.foldl_cons] at h'
      rcases ih _ h' with hacc | hres
      · have hacc2 : x ∈ (if 0 < choiceOf (holesOf wc var) t ∧
            (initialized = false ∨ choiceOf (holesOf wc var) t ∈ options) then
              insertSorted (choiceOf (holesOf wc var) t) acc else acc) := hacc
        by_cases hq : 0 < choiceOf (holesOf wc var) t ∧
            (initialized = false ∨ choiceOf (holesOf wc var) t ∈ options)
        · rw [if_pos hq] at hacc2
          rcases (mem_insertSorted _ _ _).mp hacc2 with rfl | h2
          · right
            refine ⟨⟨t, List.mem_cons_self _ _, rfl⟩, hq.1, ?_⟩
            intro hi
            rcases hq.2 with hf | hm
            · rw [hi] at hf; cases hf
            · exact hm
          · exact Or.inl h2
        · rw [if_neg hq] at hacc2
          exact Or.inl hacc2
      · right
        obtain ⟨⟨t', ht', hch⟩, hx, hio⟩ := hres
        exact ⟨⟨t', List.mem_cons_of_mem _ ht', hch⟩, hx, hio⟩
  rcases haux (struc.Lookup (emptiedOf wc)) [] h with hacc | hres
  · cases hacc
  · exact hres

lemma localOptions_pairwise (struc : Structure) (wc : Triplet) (var : Int)
    (initialized : Bool) (options : List Int) :
    (Solver.localOptions struc wc var initialized options).Pairwise (· < ·) := by
  have haux : ∀ (ts : List Triplet) (acc : List Int), acc.Pairwise (· < ·) →
      (ts.foldl (fun lo t =>
        let choice := choiceOf (holesOf wc var) t
        if 0 < choice ∧ (initialized = false ∨ choice ∈ options) then insertSorted choice lo
        else lo) acc).Pairwise (· < ·) := by
    intro ts
    induction ts with
    | nil => exact fun acc h => h
    | cons t ts ih =>
      intro acc h
      rw [List.foldl_cons]
      apply ih
      show (if 0 < choiceOf (holesOf wc var) t ∧
          (initialized = false ∨ choiceOf (holesOf wc var) t ∈ options) then
            insertSorted (choiceOf (holesOf wc var) t) acc else acc).Pairwise (· < ·)
      split_ifs
      · exact pairwise_insertSorted _ _ h
      · exact h
  exact haux _ [] List.Pairwise.nil

lemma getOptionsLoop_nil (struc : Structure) (wcs : List Triplet) (var : Int)
    (init : Bool) (options : List Int) :
    Solver.getOptionsLoop struc wcs var [] init options = options := rfl

lemma getOptionsLoop_cons (struc : Structure) (wcs : List Triplet) (var : Int)
    (i : Nat) (rest : List Nat) (init : Bool) (options : List Int) :
    Solver.getOptionsLoop struc wcs var (i :: rest) init options =
      if Solver.localOptions struc (wcs.getD i ⟨0, 0, 0⟩) var init options = [] then
        Solver.localOptions struc (wcs.getD i ⟨0, 0, 0⟩) var init options
      else Solver.getOptionsLoop struc wcs var rest true
        (Solver.localOptions struc (wcs.getD i ⟨0, 0, 0⟩) var init options) := rfl

lemma getOptionsLoop_mem (struc : Structure) (wcs : List Triplet) (var : Int)
    (L : List Nat) : ∀ (init : Bool) (options : List Int) (x : Int),
    x ∈ Solver.getOptionsLoop struc wcs var L init options →
    (init = true → x ∈ options) ∧ (L = [] → x ∈ options) ∧ (L ≠ [] → 0 < x) ∧
      ∀ i ∈ L, ∃ t ∈ struc.Lookup (emptiedOf (wcs.getD i ⟨0, 0, 0⟩)),
        choiceOf (holesOf (wcs.getD i ⟨0, 0, 0⟩) var) t = x := by
  induction L with
  | nil =>
    intro init options x h
    rw [getOptionsLoop_nil] at h
    exact ⟨fun _ => h, fun _ => h, fun hne => absurd rfl hne, by simp⟩
  | cons i rest ih =>
    intro init options x h
    rw [getOptionsLoop_cons] at h
    by_cases hlo : Solver.localOptions struc (wcs.getD i ⟨0, 0, 0⟩) var init options = []
    · rw [if_pos hlo, hlo] at h
      cases h
    · rw [if_neg hlo] at h
      obtain ⟨ha, _, _, hd⟩ := ih true _ x h
      have hx_lo := ha rfl
      obtain ⟨⟨t, ht, hch⟩, hx, hopt⟩ := localOptions_mem struc _ var init options x hx_lo
      refine ⟨hopt, fun heq => (List.cons_ne_nil i rest heq).elim, fun _ => hx, ?_⟩
      intro i' hi'
      rcases List.mem_cons.mp hi' with rfl | h2
      · exact ⟨t, ht, hch⟩
      · exact hd i' h2

lemma getOptionsLoop_pairwise (struc : Structure) (wcs : List Triplet) (var : Int)
    (L : List Nat) : ∀ (init : Bool) (options : List Int),
    options.Pairwise (· < ·) →
    (Solver.getOptionsLoop struc wcs var L init options).Pairwise (· < ·) := by
  induction L with
  | nil =>
    intro init options h
    rw [getOptionsLoop_nil]
    exact h
  | cons i rest ih =>
    intro init options h
    rw [getOptionsLoop_cons]
    split_ifs with hlo
    · rw [hlo]
      exact List.Pairwise.nil
    · exact ih true _ (localOptions_pairwise struc _ var init options)

lemma foldl_eraseStep_not_mem (asg : List Int) (me : List Nat) (L : List Nat) :
    ∀ (opts : List Int) (x : Int), x ∉ opts →
      x ∉ L.foldl (fun opts i =>
        if asg.getD i 0 ∈ opts ∧ i ∉ me then opts.erase (asg.getD i 0) else opts) opts := by
  induction L with
  | nil => exact fun opts x h => h
  | cons i L ih =>
    intro opts x h
    rw [List.foldl_cons]
    apply ih
    split_ifs with hq
    · exact fun hc => h (List.mem_of_mem_erase hc)
    · exact h

lemma foldl_eraseStep_pairwise (asg : List Int) (me : List Nat) (L : List Nat) :
    ∀ (opts : List Int), opts.Pairwise (· < ·) →
      (L.foldl (fun opts i =>
        if asg.getD i 0 ∈ opts ∧ i ∉ me then opts.erase (asg.getD i 0) else opts)
        opts).Pairwise (· < ·) := by
  induction L with
  | nil => exact fun opts h => h
  | cons i L ih =>
    intro opts h
    rw [List.foldl_cons]
    apply ih
    split_ifs with hq
    · exact (List.Pairwise.sublist (List.erase_sublist _ _) h)
    · exact h

lemma foldl_eraseStep_subset (asg : List Int) (me : List Nat) (L : List Nat) :
    ∀ (opts : List Int) (x : Int),
      x ∈ L.foldl (fun opts i =>
        if asg.getD i 0 ∈ opts ∧ i ∉ me then opts.erase (asg.getD i 0) else opts) opts →
      x ∈ opts := by
  induction L with
  | nil => exact fun opts x h => h
  | cons i L ih =>
    intro opts x h
    rw [List.foldl_cons] at h
    have h2 := ih _ x h
    revert h2
    split_ifs with hq
    · exact fun hc => List.mem_of_mem_erase hc
    · exact fun hc => hc

lemma foldl_eraseStep_erased (asg : List Int) (me : List Nat) (L : List Nat) :
    ∀ (opts : List Int), opts.Pairwise (· < ·) → ∀ j ∈ L, j ∉ me →
      asg.getD j 0 ∉ L.foldl (fun opts i =>
        if asg.getD i 0 ∈ opts ∧ i ∉ me then opts.erase (asg.getD i 0) else opts) opts := by
  induction L with
  | nil => simp
  | cons i L ih =>
    intro opts hnd j hj hjm
    rcases List.mem_cons.mp hj with rfl | hj2
    · rw [List.foldl_cons]
      apply foldl_eraseStep_not_mem
      split_ifs with hq
      · intro hc
        exact ((pairwise_lt_nodup _ hnd).mem_erase_iff.mp hc).1 rfl
      · intro hc
        exact hq ⟨hc, hjm⟩
    · rw [List.foldl_cons]
      apply ih
      · split_ifs with hq
        · exact List.Pairwise.sublist (List.erase_sublist _ _) hnd
        · exact hnd
      · exact hj2
      · exact hjm

lemma ineqFilter_subset (options asg : List Int) (me : List Nat) (ci : Nat) (x : Int)
    (h : x ∈ Solver.ineqFilter options asg me ci) : x ∈ options :=
  foldl_eraseStep_subset asg me (List.range ci) options x h

lemma ineqFilter_pairwise (options asg : List Int) (me : List Nat) (ci : Nat)
    (h : options.Pairwise (· < ·)) :
    (Solver.ineqFilter options asg me ci).Pairwise (· < ·) :=
  foldl_eraseStep_pairwise asg me (List.range ci) options h

lemma ineqFilter_erased (options asg : List Int) (me : List Nat) (ci : Nat)
    (h : options.Pairwise (· < ·)) (j : Nat) (hj : j < ci) (hjm : j ∉ me) :
    asg.getD j 0 ∉ Solver.ineqFilter options asg me ci :=
  foldl_eraseStep_erased asg me (List.range ci) options h j (List.mem_range.mpr hj) hjm

lemma ineqFilter_nil (asg : List Int) (me : List Nat) (ci : Nat) :
    Solver.ineqFilter [] asg me ci = [] := by
  unfold Solver.ineqFilter
  induction ci with
  | zero => rfl
  | succ n ih =>
    rw [List.range_succ, List.foldl_append]
    rw [ih]
    simp

lemma triplet_ext_get (s t : Triplet) (h : ∀ j : Fin 3, s.get j = t.get j) : s = t :=
  triplet_ext s t (h 0) (h 1) (h 2)

lemma substFull_get (a : List Int) (t : Triplet) (j : Fin 3) :
    (substFull a t).get j = if t.get j ≤ 0 then a.getD (-(t.get j)).toNat 0 else t.get j := by
  fin_cases j <;> rfl

lemma substVar_get (var v : Int) (t : Triplet) (j : Fin 3) :
    (substVar var v t).get j = if t.get j = var then v else t.get j := by
  fin_cases j <;> rfl

lemma restoreVar_get (var : Int) (orig w : Triplet) (j : Fin 3) :
    (restoreVar var orig w).get j = if orig.get j = var then orig.get j else w.get j := by
  fin_cases j <;> rfl

lemma emptiedOf_get (wc : Triplet) (j : Fin 3) :
    (emptiedOf wc).get j = if IsVariable (wc.get j) then 0 else wc.get j := by
  fin_cases j <;> rfl

lemma substVar_idem (var v : Int) (t : Triplet) (h : v ≠ var) :
    substVar var v (substVar var v t) = substVar var v t := by
  apply triplet_ext_get
  intro j
  simp only [substVar_get]
  split_ifs <;> simp_all

lemma restoreVar_idem (var : Int) (orig w : Triplet) :
    restoreVar var orig (restoreVar var orig w) = restoreVar var orig w := by
  apply triplet_ext_get
  intro j
  simp only [restoreVar_get]
  split_ifs <;> rfl

lemma substFull_congr (a b : List Int) (t : Triplet)
    (h : ∀ j : Fin 3, t.get j ≤ 0 → a.getD (-(t.get j)).toNat 0 = b.getD (-(t.get j)).toNat 0) :
    substFull a t = substFull b t := by
  apply triplet_ext_get
  intro j
  rw [substFull_get, substFull_get]
  split_ifs with hj
  · exact h j hj
  · rfl

lemma foldl_setSubst_length (g : Nat → Triplet → Triplet) (idxs : List Nat) :
    ∀ (wcs : List Triplet),
      (idxs.foldl (fun wcs i => wcs.set i (g i (wcs.getD i ⟨0, 0, 0⟩))) wcs).length
        = wcs.length := by
  induction idxs with
  | nil => exact fun wcs => rfl
  | cons i idxs ih =>
    intro wcs
    rw [List.foldl_cons, ih, List.length_set]

lemma foldl_setSubst_getD (g : Nat → Triplet → Triplet)
    (hidem : ∀ i t, g i (g i t) = g i t) (idxs : List Nat) :
    ∀ (wcs : List Triplet) (i' : Nat), (∀ i ∈ idxs, i < wcs.length) →
      (idxs.foldl (fun wcs i => wcs.set i (g i (wcs.getD i ⟨0, 0, 0⟩))) wcs).getD i' ⟨0, 0, 0⟩
        = if i' ∈ idxs then g i' (wcs.getD i' ⟨0, 0, 0⟩) else wcs.getD i' ⟨0, 0, 0⟩ := by
  induction idxs with
  | nil => intro wcs i' _; simp
  | cons i idxs ih =>
    intro wcs i' hlen
    have hi : i < wcs.length := hlen i (List.mem_cons_self _ _)
    have hlen' : ∀ q ∈ idxs, q < (wcs.set i (g i (wcs.getD i ⟨0, 0, 0⟩))).length := by
      intro q hq
      rw [List.length_set]
      exact hlen q (List.mem_cons_of_mem _ hq)
    rw [List.foldl_cons, ih _ i' hlen']
    by_cases hmem : i' ∈ idxs
    · rw [if_pos hmem, if_pos (List.mem_cons_of_mem _ hmem)]
      by_cases hii : i = i'
      · subst hii
        rw [getD_set_self _ _ _ _ hi, hidem]
      · rw [getD_set_ne _ _ _ _ _ hii]
    · rw [if_neg hmem]
      by_cases hii : i = i'
      · subst hii
        rw [if_pos (List.mem_cons_self _ _), getD_set_self _ _ _ _ hi]
      · rw [getD_set_ne _ _ _ _ _ hii,
          if_neg (fun hc => (List.mem_cons.mp hc).elim (fun he => hii he.symm) hmem)]

/-- All variable indices mentioned by the constraint are at most `m`. -/
def lastVarLE (t : Triplet) (m : Nat) : Prop :=
  ∀ j : Fin 3, t.get j ≤ 0 → (-(t.get j)).toNat ≤ m

instance (t : Triplet) (m : Nat) : Decidable (lastVarLE t m) := by
  unfold lastVarLE; infer_instance

/-- The working-constraints invariant (§"Invariant preserved across
assign/unassign"): positions of variables already assigned (index below
`current_index_`) hold their assigned node, all other positions still hold
their original value (variable encoding or node). -/
def Solver.WCInv (s : Solver) : Prop :=
  ∀ idx, idx < s.constraints_.length → ∀ j : Fin 3,
    (s.working_constraints_.getD idx ⟨0, 0, 0⟩).get j =
      if (s.constraints_.getD idx ⟨0, 0, 0⟩).get j ≤ 0 ∧
          -((s.constraints_.getD idx ⟨0, 0, 0⟩).get j) < s.current_index_ then
        s.assignment_.getD (-((s.constraints_.getD idx ⟨0, 0, 0⟩).get j)).toNat 0
      else (s.constraints_.getD idx ⟨0, 0, 0⟩).get j

/-- The master search invariant, holding at every loop entry and at every
quiescent point of a valid solver. -/
structure Solver.Inv (s : Solver) : Prop where
  npos : 0 < s.n_variables
  alen : s.assignment_.length = s.n_variables
  slen : s.states_.length = s.n_variables
  vlen : s.var_to_constraints_.length = s.n_variables
  wlen : s.working_constraints_.length = s.constraints_.length
  cilo : -1 ≤ s.current_index_
  cihi : s.current_index_ < (s.n_variables : Int)
  hasvar : ∀ idx, idx < s.constraints_.length →
    ∃ j : Fin 3, (s.constraints_.getD idx ⟨0, 0, 0⟩).get j ≤ 0
  vtcC : ∀ idx, idx < s.constraints_.length → ∀ j : Fin 3,
    (s.constraints_.getD idx ⟨0, 0, 0⟩).get j ≤ 0 →
      (-((s.constraints_.getD idx ⟨0, 0, 0⟩).get j)).toNat < s.n_variables ∧
      idx ∈ s.var_to_constraints_.getD (-((s.constraints_.getD idx ⟨0, 0, 0⟩).get j)).toNat []
  vtcS : ∀ m, m < s.n_variables → ∀ idx ∈ s.var_to_constraints_.getD m [],
    idx < s.constraints_.length ∧
      ∃ j : Fin 3, (s.constraints_.getD idx ⟨0, 0, 0⟩).get j = -(m : Int)
  wcinv : s.WCInv
  asgPos : ∀ m, m < s.n_variables → (m : Int) < s.current_index_ →
    0 < s.assignment_.getD m 0
  asgMem : ∀ m, m < s.n_variables → (m : Int) < s.current_index_ →
    s.assignment_.getD m 0 ∈ (s.states_.getD m default).options
  optsSorted : ∀ m, m < s.n_variables →
    ((s.states_.getD m default).options).Pairwise (· < ·)
  optsPos : ∀ m, m < s.n_variables → ∀ v ∈ (s.states_.getD m default).options, 0 < v
  cursorLe : ∀ m, m < s.n_variables →
    (s.states_.getD m default).options_it ≤ (s.states_.getD m default).options.length
  optsTrue : ∀ m, m < s.n_variables → (m : Int) ≤ s.current_index_ →
    ∀ v ∈ (s.states_.getD m default).options,
      ∀ idx ∈ s.var_to_constraints_.getD m [],
        lastVarLE (s.constraints_.getD idx ⟨0, 0, 0⟩) m →
          s.structure_.IsTrue
            (substFull (s.assignment_.set m v) (s.constraints_.getD idx ⟨0, 0, 0⟩))
  optsIneq : ∀ m, m < s.n_variables → (m : Int) ≤ s.current_index_ →
    ∀ j, j < m → j ∉ s.may_equal_.getD m [] →
      s.assignment_.getD j 0 ∉ (s.states_.getD m default).options

lemma choice_gives_fact (struc : Structure) (hW : WFStruct struc) (c wc : Triplet)
    (asg : List Int) (m : Nat) (halen : m < asg.length)
    (hwc : ∀ j : Fin 3, wc.get j =
      if c.get j ≤ 0 ∧ -(c.get j) < (m : Int) then asg.getD (-(c.get j)).toNat 0 else c.get j)
    (hasgpos : ∀ i, i < m → 0 < asg.getD i 0)
    (hlast : lastVarLE c m)
    (v : Int) (hv : 0 < v) (t : Triplet)
    (ht : t ∈ struc.Lookup (emptiedOf wc))
    (hch : choiceOf (holesOf wc (-(m : Int))) t = v) :
    struc.IsTrue (substFull (asg.set m v) c) := by
  obtain ⟨hmatch, hpos_t, htrue⟩ := hW _ t ht
  have hspec := choiceOf_spec (holesOf wc (-(m : Int))) t v
    (fun j _ => hpos_t j) hch hv
  have heq : substFull (asg.set m v) c = t := by
    apply triplet_ext_get
    intro j
    rw [substFull_get]
    have hwcj := hwc j
    by_cases hx : c.get j ≤ 0
    · have hmm : (-(c.get j)).toNat ≤ m := hlast j hx
      rw [if_pos hx]
      by_cases hlt : -(c.get j) < (m : Int)
      · have hmmlt : (-(c.get j)).toNat < m := by omega
        have hwcval : wc.get j = asg.getD (-(c.get j)).toNat 0 := by
          rw [hwcj, if_pos ⟨hx, hlt⟩]
        have hposw : 0 < wc.get j := by
          rw [hwcval]
          exact hasgpos _ hmmlt
        have hnotvar : ¬ IsVariable (wc.get j) := by
          unfold IsVariable
          omega
        have hem : (emptiedOf wc).get j = wc.get j := by
          rw [emptiedOf_get, if_neg hnotvar]
        have htj : t.get j = wc.get j := by
          rcases hmatch j with h0 | h0
          · rw [hem] at h0
            omega
          · rw [hem] at h0
            exact h0.symm
        rw [htj, hwcval, getD_set_ne _ _ _ _ _ (by omega)]
      · have hmmeq : -(c.get j) = (m : Int) := by omega
        have hwcval : wc.get j = c.get j := by
          rw [hwcj, if_neg (fun hc => hlt hc.2)]
        have hhole : holesOf wc (-(m : Int)) j = true := by
          unfold holesOf
          rw [hwcval]
          simp [show c.get j = -(m : Int) by omega]
        have htj : t.get j = v := hspec j hhole
        have hmnat : (-(c.get j)).toNat = m := by omega
        rw [hmnat, getD_set_self _ _ _ _ halen, htj]
    · rw [if_neg hx]
      have hwcval : wc.get j = c.get j := by
        rw [hwcj, if_neg (fun hc => hx hc.1)]
      have hnotvar : ¬ IsVariable (wc.get j) := by
        unfold IsVariable
        omega
      have hem : (emptiedOf wc).get j = wc.get j := by
        rw [emptiedOf_get, if_neg hnotvar]
      rcases hmatch j with h0 | h0
      · rw [hem, hwcval] at h0
        omega
      · rw [hem, hwcval] at h0
        exact h0
  rw [heq]
  exact htrue

lemma GetOptions_frame (s : Solver) :
    (s.GetOptions).structure_ = s.structure_ ∧
    (s.GetOptions).n_variables = s.n_variables ∧
    (s.GetOptions).valid_ = s.valid_ ∧
    (s.GetOptions).constraints_ = s.constraints_ ∧
    (s.GetOptions).working_constraints_ = s.working_constraints_ ∧
    (s.GetOptions).var_to_constraints_ = s.var_to_constraints_ ∧
    (s.GetOptions).may_equal_ = s.may_equal_ ∧
    (s.GetOptions).assignment_ = s.assignment_ ∧
    (s.GetOptions).current_index_ = s.current_index_ := by
  unfold Solver.GetOptions
  split_ifs <;> exact ⟨rfl, rfl, rfl, rfl, rfl, rfl, rfl, rfl, rfl⟩

lemma GetOptions_states (s : Solver) (hci0 : 0 ≤ s.current_index_)
    (hcin : s.current_index_ < (s.n_variables : Int)) :
    (s.GetOptions).states_ = s.states_.set s.current_index_.toNat
      ⟨Solver.ineqFilter
        (Solver.getOptionsLoop s.structure_ s.working_constraints_ (-s.current_index_)
          (s.var_to_constraints_.getD s.current_index_.toNat [])
          false (s.states_.getD s.current_index_.toNat default).options)
        s.assignment_ (s.may_equal_.getD s.current_index_.toNat []) s.current_index_.toNat,
        0⟩ := by
  unfold Solver.GetOptions
  rw [if_neg (by omega)]
  rfl

lemma GetOptions_guard (s : Solver)
    (h : s.current_index_ ≥ (s.n_variables : Int) ∨ s.current_index_ < 0) :
    s.GetOptions = s := by
  unfold Solver.GetOptions
  rw [if_pos h]

lemma Assign_frame (s : Solver) (v : Int) :
    (s.Assign v).structure_ = s.structure_ ∧
    (s.Assign v).n_variables = s.n_variables ∧
    (s.Assign v).valid_ = s.valid_ ∧
    (s.Assign v).constraints_ = s.constraints_ ∧
    (s.Assign v).var_to_constraints_ = s.var_to_constraints_ ∧
    (s.Assign v).may_equal_ = s.may_equal_ ∧
    (s.Assign v).states_ = s.states_ ∧
    (s.Assign v).assignment_ = s.assignment_.set s.current_index_.toNat v ∧
    (s.Assign v).current_index_ = s.current_index_ + 1 :=
  ⟨rfl, rfl, rfl, rfl, rfl, rfl, rfl, rfl, rfl⟩

lemma Assign_wc (s : Solver) (v : Int) :
    (s.Assign v).working_constraints_ =
      (s.var_to_constraints_.getD s.current_index_.toNat []).foldl
        (fun wcs i => wcs.set i (substVar (-s.current_index_) v (wcs.getD i ⟨0, 0, 0⟩)))
        s.working_constraints_ := rfl

lemma UnAssign_eq_neg (s : Solver) (hc : s.current_index_ - 1 < 0) :
    s.UnAssign = { s with current_index_ := s.current_index_ - 1 } := by
  show (if s.current_index_ - 1 < 0
    then ({ s with current_index_ := s.current_index_ - 1 } : Solver) else _) = _
  rw [if_pos hc]

lemma UnAssign_eq_pos (s : Solver) (hc : ¬ (s.current_index_ - 1 < 0)) :
    s.UnAssign = { s with
      current_index_ := s.current_index_ - 1
      working_constraints_ :=
        (s.var_to_constraints_.getD (s.current_index_ - 1).toNat []).foldl
          (fun wcs i =>
            wcs.set i (restoreVar (-(s.current_index_ - 1)) (s.constraints_.getD i ⟨0, 0, 0⟩)
              (wcs.getD i ⟨0, 0, 0⟩)))
          s.working_constraints_ } := by
  show (if s.current_index_ - 1 < 0
    then ({ s with current_index_ := s.current_index_ - 1 } : Solver) else _) = _
  rw [if_neg hc]
  rfl

lemma UnAssign_frame (s : Solver) :
    (s.UnAssign).structure_ = s.structure_ ∧
    (s.UnAssign).n_variables = s.n_variables ∧
    (s.UnAssign).valid_ = s.valid_ ∧
    (s.UnAssign).constraints_ = s.constraints_ ∧
    (s.UnAssign).var_to_constraints_ = s.var_to_constraints_ ∧
    (s.UnAssign).may_equal_ = s.may_equal_ ∧
    (s.UnAssign).states_ = s.states_ ∧
    (s.UnAssign).assignment_ = s.assignment_ ∧
    (s.UnAssign).current_index_ = s.current_index_ - 1 := by
  by_cases hc : s.current_index_ - 1 < 0
  · rw [UnAssign_eq_neg s hc]
    exact ⟨rfl, rfl, rfl, rfl, rfl, rfl, rfl, rfl, rfl⟩
  · rw [UnAssign_eq_pos s hc]
    exact ⟨rfl, rfl, rfl, rfl, rfl, rfl, rfl, rfl, rfl⟩

lemma UnAssign_wc_neg (s : Solver) (h : s.current_index_ - 1 < 0) :
    (s.UnAssign).working_constraints_ = s.working_constraints_ := by
  rw [UnAssign_eq_neg s h]

lemma UnAssign_wc_pos (s : Solver) (h : ¬ (s.current_index_ - 1 < 0)) :
    (s.UnAssign).working_constraints_ =
      (s.var_to_constraints_.getD (s.current_index_ - 1).toNat []).foldl
        (fun wcs i =>
          wcs.set i (restoreVar (-(s.current_index_ - 1)) (s.constraints_.getD i ⟨0, 0, 0⟩)
            (wcs.getD i ⟨0, 0, 0⟩)))
        s.working_constraints_ := by
  rw [UnAssign_eq_pos s h]

lemma bumpCursor_frame (s : Solver) (ci : Nat) :
    (s.bumpCursor ci).structure_ = s.structure_ ∧
    (s.bumpCursor ci).n_variables = s.n_variables ∧
    (s.bumpCursor ci).valid_ = s.valid_ ∧
    (s.bumpCursor ci).constraints_ = s.constraints_ ∧
    (s.bumpCursor ci).working_constraints_ = s.working_constraints_ ∧
    (s.bumpCursor ci).var_to_constraints_ = s.var_to_constraints_ ∧
    (s.bumpCursor ci).may_equal_ = s.may_equal_ ∧
    (s.bumpCursor ci).assignment_ = s.assignment_ ∧
    (s.bumpCursor ci).current_index_ = s.current_index_ ∧
    (s.bumpCursor ci).states_ = s.states_.set ci
      ⟨(s.states_.getD ci default).options, (s.states_.getD ci default).options_it + 1⟩ :=
  ⟨rfl, rfl, rfl, rfl, rfl, rfl, rfl, rfl, rfl, rfl⟩

/-- The invariant with the option-soundness fields restricted to levels
strictly below the current one: this is what holds right after `Assign`,
before the following `GetOptions` re-seeds the present level. -/
structure Solver.InvPre (s : Solver) : Prop where
  npos : 0 < s.n_variables
  alen : s.assignment_.length = s.n_variables
  slen : s.states_.length = s.n_variables
  vlen : s.var_to_constraints_.length = s.n_variables
  wlen : s.working_constraints_.length = s.constraints_.length
  cilo : -1 ≤ s.current_index_
  cihi : s.current_index_ < (s.n_variables : Int)
  hasvar : ∀ idx, idx < s.constraints_.length →
    ∃ j : Fin 3, (s.constraints_.getD idx ⟨0, 0, 0⟩).get j ≤ 0
  vtcC : ∀ idx, idx < s.constraints_.length → ∀ j : Fin 3,
    (s.constraints_.getD idx ⟨0, 0, 0⟩).get j ≤ 0 →
      (-((s.constraints_.getD idx ⟨0, 0, 0⟩).get j)).toNat < s.n_variables ∧
      idx ∈ s.var_to_constraints_.getD (-((s.constraints_.getD idx ⟨0, 0, 0⟩).get j)).toNat []
  vtcS : ∀ m, m < s.n_variables → ∀ idx ∈ s.var_to_constraints_.getD m [],
    idx < s.constraints_.length ∧
      ∃ j : Fin 3, (s.constraints_.getD idx ⟨0, 0, 0⟩).get j = -(m : Int)
  wcinv : s.WCInv
  asgPos : ∀ m, m < s.n_variables → (m : Int) < s.current_index_ →
    0 < s.assignment_.getD m 0
  asgMem : ∀ m, m < s.n_variables → (m : Int) < s.current_index_ →
    s.assignment_.getD m 0 ∈ (s.states_.getD m default).options
  optsSorted : ∀ m, m < s.n_variables →
    ((s.states_.getD m default).options).Pairwise (· < ·)
  optsPos : ∀ m, m < s.n_variables → ∀ v ∈ (s.states_.getD m default).options, 0 < v
  cursorLe : ∀ m, m < s.n_variables →
    (s.states_.getD m default).options_it ≤ (s.states_.getD m default).options.length
  optsTrueLt : ∀ m, m < s.n_variables → (m : Int) < s.current_index_ →
    ∀ v ∈ (s.states_.getD m default).options,
      ∀ idx ∈ s.var_to_constraints_.getD m [],
        lastVarLE (s.constraints_.getD idx ⟨0, 0, 0⟩) m →
          s.structure_.IsTrue
            (substFull (s.assignment_.set m v) (s.constraints_.getD idx ⟨0, 0, 0⟩))
  optsIneqLt : ∀ m, m < s.n_variables → (m : Int) < s.current_index_ →
    ∀ j, j < m → j ∉ s.may_equal_.getD m [] →
      s.assignment_.getD j 0 ∉ (s.states_.getD m default).options

lemma Solver.Inv.toPre {s : Solver} (h : s.Inv) : s.InvPre :=
  ⟨h.npos, h.alen, h.slen, h.vlen, h.wlen, h.cilo, h.cihi, h.hasvar, h.vtcC, h.vtcS,
   h.wcinv, h.asgPos, h.asgMem, h.optsSorted, h.optsPos, h.cursorLe,
   fun m hm hmci => h.optsTrue m hm (le_of_lt hmci),
   fun m hm hmci => h.optsIneq m hm (le_of_lt hmci)⟩

lemma Inv_GetOptions (s : Solver) (hW : WFStruct s.structure_) (h : s.InvPre)
    (hci : 0 ≤ s.current_index_) : (s.GetOptions).Inv := by
  obtain ⟨f1, f2, f3, f4, f5, f6, f7, f8, f9⟩ := GetOptions_frame s
  have hcieq : ((s.current_index_.toNat : Nat) : Int) = s.current_index_ :=
    Int.toNat_of_nonneg hci
  have hcilt : s.current_index_.toNat < s.n_variables := by
    have := h.cihi
    omega
  have hstates := GetOptions_states s hci h.cihi
  set ci := s.current_index_.toNat with hcidef
  set opts0 := (s.states_.getD ci default).options with hopts0
  set opts1 := Solver.getOptionsLoop s.structure_ s.working_constraints_ (-s.current_index_)
    (s.var_to_constraints_.getD ci []) false opts0 with hopts1
  set opts2 := Solver.ineqFilter opts1 s.assignment_ (s.may_equal_.getD ci []) ci with hopts2
  have hslen : ci < s.states_.length := by rw [h.slen]; exact hcilt
  have hgetci : ((s.states_.set ci ⟨opts2, 0⟩).getD ci default) = ⟨opts2, 0⟩ :=
    getD_set_self _ _ _ _ hslen
  have hgetne : ∀ m, m ≠ ci →
      (s.states_.set ci ⟨opts2, 0⟩).getD m default = s.states_.getD m default :=
    fun m hm => getD_set_ne _ _ _ _ _ (fun he => hm he.symm)
  have hsorted0 : opts0.Pairwise (· < ·) := h.optsSorted ci hcilt
  have hsorted1 : opts1.Pairwise (· < ·) :=
    getOptionsLoop_pairwise _ _ _ _ _ _ hsorted0
  have hsorted2 : opts2.Pairwise (· < ·) := ineqFilter_pairwise _ _ _ _ hsorted1
  have hpos2 : ∀ v ∈ opts2, 0 < v := by
    intro v hv2
    have hv1 := ineqFilter_subset _ _ _ _ _ hv2
    obtain ⟨ha, hb, hcpos, hd⟩ := getOptionsLoop_mem _ _ _ _ _ _ _ hv1
    by_cases hL : s.var_to_constraints_.getD ci [] = []
    · exact h.optsPos ci hcilt v (hb hL)
    · exact hcpos hL
  have htrue2 : ∀ v ∈ opts2, ∀ idx ∈ s.var_to_constraints_.getD ci [],
      lastVarLE (s.constraints_.getD idx ⟨0, 0, 0⟩) ci →
        s.structure_.IsTrue
          (substFull (s.assignment_.set ci v) (s.constraints_.getD idx ⟨0, 0, 0⟩)) := by
    intro v hv2 idx hidx hlast
    have hv1 := ineqFilter_subset _ _ _ _ _ hv2
    obtain ⟨ha, hb, hcpos, hd⟩ := getOptionsLoop_mem _ _ _ _ _ _ _ hv1
    have hvpos : 0 < v := hcpos (by intro hL; rw [hL] at hidx; cases hidx)
    obtain ⟨t, ht, hch⟩ := hd idx hidx
    obtain ⟨hidxlt, _⟩ := h.vtcS ci hcilt idx hidx
    have hch' : choiceOf
        (holesOf (s.working_constraints_.getD idx ⟨0, 0, 0⟩) (-(ci : Int))) t = v := by
      rw [hcidef, hcieq]
      exact hch
    apply choice_gives_fact s.structure_ hW _ _ s.assignment_ ci
      (by rw [h.alen]; exact hcilt) ?_ ?_ hlast v hvpos t ht hch'
    · intro j
      have hwj := h.wcinv idx hidxlt j
      rw [hwj, hcidef, hcieq]
    · intro i hi
      apply h.asgPos i (by omega)
      omega
  have hineq2 : ∀ j, j < ci → j ∉ s.may_equal_.getD ci [] →
      s.assignment_.getD j 0 ∉ opts2 :=
    fun j hj hjm => ineqFilter_erased _ _ _ _ hsorted1 j hj hjm
  refine ⟨?_, ?_, ?_, ?_, ?_, ?_, ?_, ?_, ?_, ?_, ?_, ?_, ?_, ?_, ?_, ?_, ?_, ?_⟩
  · rw [f2]; exact h.npos
  · rw [f8, f2]; exact h.alen
  · rw [hstates, f2, List.length_set]; exact h.slen
  · rw [f6, f2]; exact h.vlen
  · rw [f5, f4]; exact h.wlen
  · rw [f9]; exact h.cilo
  · rw [f9, f2]; exact h.cihi
  · rw [f4]; exact h.hasvar
  · rw [f4, f6, f2]; exact h.vtcC
  · rw [f6, f4, f2]; exact h.vtcS
  · intro idx hidx j
    rw [f5, f4, f9, f8] at *
    exact h.wcinv idx hidx j
  · rw [f8, f9, f2]; exact h.asgPos
  · intro m hm hmci
    rw [f2] at hm
    rw [f9] at hmci
    rw [f8, hstates]
    have hmne : m ≠ ci := by omega
    rw [hgetne m hmne]
    exact h.asgMem m hm hmci
  · intro m hm
    rw [f2] at hm
    rw [hstates]
    by_cases hmc : m = ci
    · subst hmc
      rw [hgetci]
      exact hsorted2
    · rw [hgetne m hmc]
      exact h.optsSorted m hm
  · intro m hm
    rw [f2] at hm
    rw [hstates]
    by_cases hmc : m = ci
    · subst hmc
      rw [hgetci]
      exact hpos2
    · rw [hgetne m hmc]
      exact h.optsPos m hm
  · intro m hm
    rw [f2] at hm
    rw [hstates]
    by_cases hmc : m = ci
    · subst hmc
      rw [hgetci]
      exact Nat.zero_le _
    · rw [hgetne m hmc]
      exact h.cursorLe m hm
  · intro m hm hmci
    rw [f2] at hm
    rw [f9] at hmci
    rw [hstates, f6, f4, f1, f8]
    by_cases hmc : m = ci
    · subst hmc
      rw [hgetci]
      exact htrue2
    · rw [hgetne m hmc]
      exact h.optsTrueLt m hm (by omega)
  · intro m hm hmci
    rw [f2] at hm
    rw [f9] at hmci
    rw [hstates, f7, f8]
    by_cases hmc : m = ci
    · subst hmc
      rw [hgetci]
      exact hineq2
    · rw [hgetne m hmc]
      exact h.optsIneqLt m hm (by omega)

lemma Assign_WCInv (s : Solver) (h : s.InvPre) (hci : 0 ≤ s.current_index_) (v : Int)
    (hv : 0 < v) : (s.Assign v).WCInv := by
  obtain ⟨g1, g2, g3, g4, g5, g6, g7, g8, g9⟩ := Assign_frame s v
  have hcieq : ((s.current_index_.toNat : Nat) : Int) = s.current_index_ :=
    Int.toNat_of_nonneg hci
  have hcilt : s.current_index_.toNat < s.n_variables := by
    have := h.cihi
    omega
  have hcialen : s.current_index_.toNat < s.assignment_.length := by
    rw [h.alen]
    exact hcilt
  set cur := s.current_index_ with hcur
  set ci := cur.toNat with hcidef
  intro idx hidx j
  rw [g4] at hidx
  have hidxs : ∀ i ∈ s.var_to_constraints_.getD ci [], i < s.working_constraints_.length := by
    intro i hi
    rw [h.wlen]
    exact (h.vtcS ci hcilt i hi).1
  have hidem : ∀ (i : Nat) (t : Triplet),
      substVar (-cur) v (substVar (-cur) v t) = substVar (-cur) v t :=
    fun i t => substVar_idem _ _ t (by omega)
  have hwcfold := foldl_setSubst_getD (fun i t => substVar (-cur) v t) hidem
    (s.var_to_constraints_.getD ci []) s.working_constraints_ idx hidxs
  have hwnew : (s.Assign v).working_constraints_.getD idx ⟨0, 0, 0⟩ =
      if idx ∈ s.var_to_constraints_.getD ci [] then
        substVar (-cur) v (s.working_constraints_.getD idx ⟨0, 0, 0⟩)
      else s.working_constraints_.getD idx ⟨0, 0, 0⟩ := by
    rw [Assign_wc]
    exact hwcfold
  have hwold := h.wcinv idx hidx j
  set x := (s.constraints_.getD idx ⟨0, 0, 0⟩).get j with hx
  rw [hwnew, g4, g8, g9]
  by_cases hmem : idx ∈ s.var_to_constraints_.getD ci []
  · rw [if_pos hmem, substVar_get]
    by_cases hxv : x ≤ 0
    · by_cases hlt : -x < cur
      · have hpos : 0 < s.assignment_.getD (-x).toNat 0 := by
          apply h.asgPos
          · omega
          · omega
        have hwval : (s.working_constraints_.getD idx ⟨0, 0, 0⟩).get j
            = s.assignment_.getD (-x).toNat 0 := by
          rw [hwold, if_pos ⟨hxv, hlt⟩]
        rw [hwval, if_neg (by omega : ¬ s.assignment_.getD (-x).toNat 0 = -cur),
          if_pos ⟨hxv, by omega⟩, getD_set_ne _ _ _ _ _ (by omega : ci ≠ (-x).toNat)]
      · by_cases heq : -x = cur
        · have hwval : (s.working_constraints_.getD idx ⟨0, 0, 0⟩).get j = x := by
            rw [hwold, if_neg (fun hc => hlt hc.2)]
          have hmmeq : (-x).toNat = ci := by omega
          rw [hwval, if_pos (by omega : x = -cur), if_pos ⟨hxv, by omega⟩, hmmeq,
            getD_set_self _ _ _ _ hcialen]
        · have hwval : (s.working_constraints_.getD idx ⟨0, 0, 0⟩).get j = x := by
            rw [hwold, if_neg (fun hc => hlt hc.2)]
          rw [hwval, if_neg (by omega : ¬ x = -cur), if_neg (by omega)]
    · have hwval : (s.working_constraints_.getD idx ⟨0, 0, 0⟩).get j = x := by
        rw [hwold, if_neg (fun hc => hxv hc.1)]
      rw [hwval, if_neg (by omega : ¬ x = -cur), if_neg (fun hc => hxv hc.1)]
  · rw [if_neg hmem, hwold]
    by_cases hxv : x ≤ 0
    · by_cases hlt : -x < cur
      · rw [if_pos ⟨hxv, hlt⟩, if_pos ⟨hxv, by omega⟩,
          getD_set_ne _ _ _ _ _ (by omega : ci ≠ (-x).toNat)]
      · by_cases heq : -x = cur
        · exfalso
          have hvtc := (h.vtcC idx hidx j hxv).2
          have hmmeq : (-x).toNat = ci := by omega
          rw [← hx, hmmeq] at hvtc
          exact hmem hvtc
        · rw [if_neg (fun hc => hlt hc.2), if_neg (by omega)]
    · rw [if_neg (fun hc => hxv hc.1), if_neg (fun hc => hxv hc.1)]

lemma UnAssign_WCInv (s : Solver)
    (hw : s.WCInv)
    (hvtcC : ∀ idx, idx < s.constraints_.length → ∀ j : Fin 3,
      (s.constraints_.getD idx ⟨0, 0, 0⟩).get j ≤ 0 →
        (-((s.constraints_.getD idx ⟨0, 0, 0⟩).get j)).toNat < s.n_variables ∧
        idx ∈ s.var_to_constraints_.getD
          (-((s.constraints_.getD idx ⟨0, 0, 0⟩).get j)).toNat [])
    (hvtcS : ∀ m, m < s.n_variables → ∀ idx ∈ s.var_to_constraints_.getD m [],
      idx < s.constraints_.length)
    (hwlen : s.working_constraints_.length = s.constraints_.length)
    (hci : 0 ≤ s.current_index_) (hcin : s.current_index_ ≤ (s.n_variables : Int)) :
    (s.UnAssign).WCInv := by
  obtain ⟨u1, u2, u3, u4, u5, u6, u7, u8, u9⟩ := UnAssign_frame s
  intro idx hidx j
  rw [u4] at hidx
  rw [u4, u8, u9]
  by_cases hneg : s.current_index_ - 1 < 0
  · rw [UnAssign_wc_neg s hneg]
    have hwold := hw idx hidx j
    set x := (s.constraints_.getD idx ⟨0, 0, 0⟩).get j with hx
    rw [hwold]
    have h0 : s.current_index_ = 0 := by omega
    by_cases hxv : x ≤ 0
    · rw [if_neg (by omega), if_neg (by omega)]
    · rw [if_neg (fun hc => hxv hc.1), if_neg (fun hc => hxv hc.1)]
  · rw [UnAssign_wc_pos s hneg]
    set k := (s.current_index_ - 1).toNat with hkdef
    have hkeq : (k : Int) = s.current_index_ - 1 := Int.toNat_of_nonneg (by omega)
    have hkn : k < s.n_variables := by omega
    have hidxs : ∀ i ∈ s.var_to_constraints_.getD k [],
        i < s.working_constraints_.length := by
      intro i hi
      rw [hwlen]
      exact hvtcS k hkn i hi
    have hidem : ∀ (i : Nat) (t : Triplet),
        restoreVar (-(s.current_index_ - 1)) (s.constraints_.getD i ⟨0, 0, 0⟩)
          (restoreVar (-(s.current_index_ - 1)) (s.constraints_.getD i ⟨0, 0, 0⟩) t)
        = restoreVar (-(s.current_index_ - 1)) (s.constraints_.getD i ⟨0, 0, 0⟩) t :=
      fun i t => restoreVar_idem _ _ _
    have hfold := foldl_setSubst_getD
      (fun i t => restoreVar (-(s.current_index_ - 1)) (s.constraints_.getD i ⟨0, 0, 0⟩) t)
      hidem (s.var_to_constraints_.getD k []) s.working_constraints_ idx hidxs
    rw [hfold]
    have hwold := hw idx hidx j
    set x := (s.constraints_.getD idx ⟨0, 0, 0⟩).get j with hx
    by_cases hmem : idx ∈ s.var_to_constraints_.getD k []
    · rw [if_pos hmem, restoreVar_get]
      by_cases hxvar : x = -(s.current_index_ - 1)
      · rw [if_pos hxvar, if_neg (by omega)]
      · rw [if_neg hxvar, hwold]
        by_cases hxv : x ≤ 0
        · by_cases hlt : -x < s.current_index_ - 1
          · rw [if_pos ⟨hxv, by omega⟩, if_pos ⟨hxv, hlt⟩]
          · rw [if_neg (by omega), if_neg (by omega)]
        · rw [if_neg (fun hc => hxv hc.1), if_neg (fun hc => hxv hc.1)]
    · rw [if_neg hmem, hwold]
      by_cases hxv : x ≤ 0
      · by_cases hlt : -x < s.current_index_ - 1
        · rw [if_pos ⟨hxv, by omega⟩, if_pos ⟨hxv, hlt⟩]
        · by_cases heq2 : -x = s.current_index_ - 1
          · exfalso
            have hvtc := (hvtcC idx hidx j hxv).2
            have hmmk : (-x).toNat = k := by omega
            rw [← hx, hmmk] at hvtc
            exact hmem hvtc
          · rw [if_neg (by omega), if_neg (by omega)]
      · rw [if_neg (fun hc => hxv hc.1), if_neg (fun hc => hxv hc.1)]

lemma Inv_UnAssign (s : Solver) (h : s.Inv) (hci : 0 ≤ s.current_index_) :
    (s.UnAssign).Inv := by
  obtain ⟨u1, u2, u3, u4, u5, u6, u7, u8, u9⟩ := UnAssign_frame s
  have hwlen2 : (s.UnAssign).working_constraints_.length
      = s.working_constraints_.length := by
    by_cases hneg : s.current_index_ - 1 < 0
    · rw [UnAssign_wc_neg s hneg]
    · rw [UnAssign_wc_pos s hneg, foldl_setSubst_length]
  refine ⟨?_, ?_, ?_, ?_, ?_, ?_, ?_, ?_, ?_, ?_, ?_, ?_, ?_, ?_, ?_, ?_, ?_, ?_⟩
  · rw [u2]; exact h.npos
  · rw [u8, u2]; exact h.alen
  · rw [u7, u2]; exact h.slen
  · rw [u5, u2]; exact h.vlen
  · rw [hwlen2, u4]; exact h.wlen
  · rw [u9]; omega
  · rw [u9, u2]
    have := h.cihi
    omega
  · rw [u4]; exact h.hasvar
  · rw [u4, u5, u2]; exact h.vtcC
  · rw [u5, u4, u2]; exact h.vtcS
  · exact UnAssign_WCInv s h.wcinv h.vtcC
      (fun m hm idx hidx => (h.vtcS m hm idx hidx).1) h.wlen hci (le_of_lt h.cihi)
  · intro m hm hmci
    rw [u2] at hm
    rw [u9] at hmci
    rw [u8]
    exact h.asgPos m hm (by omega)
  · intro m hm hmci
    rw [u2] at hm
    rw [u9] at hmci
    rw [u8, u7]
    exact h.asgMem m hm (by omega)
  · rw [u7, u2]; exact h.optsSorted
  · rw [u7, u2]; exact h.optsPos
  · rw [u7, u2]; exact h.cursorLe
  · intro m hm hmci
    rw [u2] at hm
    rw [u9] at hmci
    rw [u7, u4, u5, u1, u8]
    exact h.optsTrue m hm (by omega)
  · intro m hm hmci
    rw [u2] at hm
    rw [u9] at hmci
    rw [u7, u6, u8]
    exact h.optsIneq m hm (by omega)

/-- Variable indices mentioned by a triplet. -/
def varNats (t : Triplet) : List Nat :=
  ([0, 1, 2] : List (Fin 3)).filterMap
    (fun j => if t.get j ≤ 0 then some (-(t.get j)).toNat else none)

/-- The largest variable index mentioned by a triplet. -/
def maxVarIdx (t : Triplet) : Nat := (varNats t).foldr max 0

lemma mem_varNats (t : Triplet) (m : Nat) :
    m ∈ varNats t ↔ ∃ j : Fin 3, t.get j ≤ 0 ∧ (-(t.get j)).toNat = m := by
  unfold varNats
  rw [List.mem_filterMap]
  constructor
  · rintro ⟨j, hj, hopt⟩
    by_cases hx : t.get j ≤ 0
    · rw [if_pos hx] at hopt
      exact ⟨j, hx, by injection hopt⟩
    · rw [if_neg hx] at hopt
      cases hopt
  · rintro ⟨j, hx, hm⟩
    refine ⟨j, by fin_cases j <;> decide, by rw [if_pos hx, hm]⟩

lemma foldr_max_mem (l : List Nat) (h : l ≠ []) : l.foldr max 0 ∈ l := by
  induction l with
  | nil => cases h rfl
  | cons x xs ih =>
    by_cases hxs : xs = []
    · subst hxs
      simp
    · rw [List.foldr_cons]
      rcases Nat.le_total x (xs.foldr max 0) with hle | hle
      · rw [max_eq_right hle]
        exact List.mem_cons_of_mem _ (ih hxs)
      · rw [max_eq_left hle]
        exact List.mem_cons_self _ _

lemma foldr_max_le (l : List Nat) (x : Nat) (h : x ∈ l) : x ≤ l.foldr max 0 := by
  induction l with
  | nil => cases h
  | cons y ys ih =>
    rw [List.foldr_cons]
    rcases List.mem_cons.mp h with rfl | h2
    · exact le_max_left _ _
    · exact le_trans (ih h2) (le_max_right _ _)

lemma maxVarIdx_spec (t : Triplet) (hv : ∃ j : Fin 3, t.get j ≤ 0) :
    (∃ j : Fin 3, t.get j = -(maxVarIdx t : Int)) ∧ lastVarLE t (maxVarIdx t) := by
  have hne : varNats t ≠ [] := by
    obtain ⟨j, hj⟩ := hv
    intro hnil
    have hmem : (-(t.get j)).toNat ∈ varNats t := (mem_varNats t _).mpr ⟨j, hj, rfl⟩
    rw [hnil] at hmem
    cases hmem
  constructor
  · have hmem : maxVarIdx t ∈ varNats t := foldr_max_mem _ hne
    obtain ⟨j, hj, hm⟩ := (mem_varNats t _).mp hmem
    exact ⟨j, by omega⟩
  · intro j hj
    exact foldr_max_le _ _ ((mem_varNats t _).mpr ⟨j, hj, rfl⟩)

/-- The node the search loop reads at the current cursor. -/
def Solver.cursorVal (s : Solver) : Int :=
  (s.states_.getD s.current_index_.toNat default).options.getD
    (s.states_.getD s.current_index_.toNat default).options_it 0

/-- The combined `Assign` + cursor-increment step of the search loop. -/
def Solver.stepAssign (s : Solver) : Solver :=
  (s.Assign s.cursorVal).bumpCursor s.current_index_.toNat

/-- Assignments the solver may legitimately return: complete, positive, making
every stored parametric constraint a fact, and respecting the inequality
restrictions. -/
def Solver.GoodAssignment (s : Solver) (a : List Int) : Prop :=
  a.length = s.n_variables ∧ (∀ i, i < s.n_variables → 0 < a.getD i 0) ∧
  (∀ idx, idx < s.constraints_.length →
    s.structure_.IsTrue (substFull a (s.constraints_.getD idx ⟨0, 0, 0⟩))) ∧
  (∀ j k, j < k → k < s.n_variables → j ∉ s.may_equal_.getD k [] →
    a.getD j 0 ≠ a.getD k 0)

lemma stepAssign_fields (s : Solver) :
    (s.stepAssign).structure_ = s.structure_ ∧
    (s.stepAssign).n_variables = s.n_variables ∧
    (s.stepAssign).valid_ = s.valid_ ∧
    (s.stepAssign).constraints_ = s.constraints_ ∧
    (s.stepAssign).var_to_constraints_ = s.var_to_constraints_ ∧
    (s.stepAssign).may_equal_ = s.may_equal_ ∧
    (s.stepAssign).assignment_ = s.assignment_.set s.current_index_.toNat s.cursorVal ∧
    (s.stepAssign).current_index_ = s.current_index_ + 1 ∧
    (s.stepAssign).states_ = s.states_.set s.current_index_.toNat
      ⟨(s.states_.getD s.current_index_.toNat default).options,
       (s.states_.getD s.current_index_.toNat default).options_it + 1⟩ ∧
    (s.stepAssign).working_constraints_ = (s.Assign s.cursorVal).working_constraints_ :=
  ⟨rfl, rfl, rfl, rfl, rfl, rfl, rfl, rfl, rfl, rfl⟩

lemma stepAssign_core (s : Solver) (h : s.Inv) (hci : 0 ≤ s.current_index_)
    (hcur : (s.states_.getD s.current_index_.toNat default).options_it <
      (s.states_.getD s.current_index_.toNat default).options.length) :
    0 < s.cursorVal ∧
    s.cursorVal ∈ (s.states_.getD s.current_index_.toNat default).options ∧
    (s.stepAssign).WCInv ∧
    (s.stepAssign).working_constraints_.length = s.constraints_.length ∧
    (∀ m, m < s.n_variables → (m : Int) < s.current_index_ + 1 →
      0 < (s.stepAssign).assignment_.getD m 0) ∧
    (∀ m, m < s.n_variables → (m : Int) < s.current_index_ + 1 →
      (s.stepAssign).assignment_.getD m 0
        ∈ ((s.stepAssign).states_.getD m default).options) ∧
    (∀ m, m < s.n_variables →
      (((s.stepAssign).states_.getD m default).options).Pairwise (· < ·)) ∧
    (∀ m, m < s.n_variables → ∀ w ∈ ((s.stepAssign).states_.getD m default).options,
      0 < w) ∧
    (∀ m, m < s.n_variables → ((s.stepAssign).states_.getD m default).options_it
      ≤ ((s.stepAssign).states_.getD m default).options.length) ∧
    (∀ m, m < s.n_variables → (m : Int) < s.current_index_ + 1 →
      ∀ w ∈ ((s.stepAssign).states_.getD m default).options,
        ∀ idx ∈ s.var_to_constraints_.getD m [],
          lastVarLE (s.constraints_.getD idx ⟨0, 0, 0⟩) m →
            s.structure_.IsTrue (substFull ((s.stepAssign).assignment_.set m w)
              (s.constraints_.getD idx ⟨0, 0, 0⟩))) ∧
    (∀ m, m < s.n_variables → (m : Int) < s.current_index_ + 1 →
      ∀ j, j < m → j ∉ s.may_equal_.getD m [] →
        (s.stepAssign).assignment_.getD j 0
          ∉ ((s.stepAssign).states_.getD m default).options) := by
  obtain ⟨e1, e2, e3, e4, e5, e6, e7, e8, e9, e10⟩ := stepAssign_fields s
  have hcieq : ((s.current_index_.toNat : Nat) : Int) = s.current_index_ :=
    Int.toNat_of_nonneg hci
  have hcilt : s.current_index_.toNat < s.n_variables := by
    have := h.cihi
    omega
  set cur := s.current_index_ with hcurdef
  set ci := cur.toNat with hcidef
  set v := s.cursorVal with hvdef
  have hslen : ci < s.states_.length := by rw [h.slen]; exact hcilt
  have halen : ci < s.assignment_.length := by rw [h.alen]; exact hcilt
  have hvmem : v ∈ (s.states_.getD ci default).options := by
    rw [hvdef]
    exact getD_mem _ _ _ hcur
  have hvpos : 0 < v := h.optsPos ci hcilt v hvmem
  have hstge : ∀ m, m ≠ ci → (s.stepAssign).states_.getD m default
      = s.states_.getD m default := by
    intro m hm
    rw [e9]
    exact getD_set_ne _ _ _ _ _ (fun he => hm he.symm)
  have hstci : (s.stepAssign).states_.getD ci default =
      ⟨(s.states_.getD ci default).options, (s.states_.getD ci default).options_it + 1⟩ := by
    rw [e9]
    exact getD_set_self _ _ _ _ hslen
  have hage : ∀ m, m ≠ ci → (s.stepAssign).assignment_.getD m 0
      = s.assignment_.getD m 0 := by
    intro m hm
    rw [e7]
    exact getD_set_ne _ _ _ _ _ (fun he => hm he.symm)
  have haci : (s.stepAssign).assignment_.getD ci 0 = v := by
    rw [e7]
    exact getD_set_self _ _ _ _ halen
  refine ⟨hvpos, hvmem, ?_, ?_, ?_, ?_, ?_, ?_, ?_, ?_, ?_⟩
  · intro idx hidx j
    exact Assign_WCInv s h.toPre hci v hvpos idx hidx j
  · rw [e10, Assign_wc, foldl_setSubst_length]
    exact h.wlen
  · intro m hm hmci
    by_cases hmc : m = ci
    · subst hmc
      rw [haci]
      exact hvpos
    · rw [hage m hmc]
      exact h.asgPos m hm (by omega)
  · intro m hm hmci
    by_cases hmc : m = ci
    · subst hmc
      rw [haci, hstci]
      exact hvmem
    · rw [hage m hmc, hstge m hmc]
      exact h.asgMem m hm (by omega)
  · intro m hm
    by_cases hmc : m = ci
    · subst hmc
      rw [hstci]
      exact h.optsSorted ci hm
    · rw [hstge m hmc]
      exact h.optsSorted m hm
  · intro m hm
    by_cases hmc : m = ci
    · subst hmc
      rw [hstci]
      exact h.optsPos ci hm
    · rw [hstge m hmc]
      exact h.optsPos m hm
  · intro m hm
    by_cases hmc : m = ci
    · subst hmc
      rw [hstci]
      exact hcur
    · rw [hstge m hmc]
      exact h.cursorLe m hm
  · intro m hm hmci w hw idx hidx hlast
    have hcong : ∀ w2 : Int, substFull ((s.stepAssign).assignment_.set m w2)
        (s.constraints_.getD idx ⟨0, 0, 0⟩)
        = substFull (s.assignment_.set m w2) (s.constraints_.getD idx ⟨0, 0, 0⟩) := by
      intro w2
      apply substFull_congr
      intro j hj
      have hmle : (-((s.constraints_.getD idx ⟨0, 0, 0⟩).get j)).toNat ≤ m := hlast j hj
      set mm := (-((s.constraints_.getD idx ⟨0, 0, 0⟩).get j)).toNat with hmm
      have hmalen : m < s.assignment_.length := by rw [h.alen]; exact hm
      have hmalen2 : m < (s.assignment_.set ci v).length := by
        rw [List.length_set]
        exact hmalen
      by_cases hmmm : mm = m
      · subst hmmm
        rw [e7, getD_set_self _ _ _ _ hmalen2, getD_set_self _ _ _ _ hmalen]
      · rw [getD_set_ne _ _ _ _ _ (fun he => hmmm he.symm),
          getD_set_ne _ _ _ _ _ (fun he => hmmm he.symm), e7]
        have hmmci : mm ≠ ci := by omega
        rw [getD_set_ne _ _ _ _ _ (fun he => hmmci he.symm)]
    rw [hcong w]
    by_cases hmc : m = ci
    · subst hmc
      rw [hstci] at hw
      exact h.optsTrue ci hm (by omega) w hw idx hidx hlast
    · rw [hstge m hmc] at hw
      exact h.optsTrue m hm (by omega) w hw idx hidx hlast
  · intro m hm hmci j hj hjm
    have hjci : j ≠ ci := by omega
    rw [hage j hjci]
    by_cases hmc : m = ci
    · subst hmc
      rw [hstci]
      exact h.optsIneq ci hm (by omega) j hj hjm
    · rw [hstge m hmc]
      exact h.optsIneq m hm (by omega) j hj hjm

lemma set_getD_self_eq (l : List Int) (m : Nat) (hm : m < l.length) (i : Nat) :
    (l.set m (l.getD m 0)).getD i 0 = l.getD i 0 := by
  by_cases him : m = i
  · subst him
    rw [getD_set_self _ _ _ _ hm]
  · rw [getD_set_ne _ _ _ _ _ him]

lemma stepAssign_invpre (s : Solver) (h : s.Inv) (hci : 0 ≤ s.current_index_)
    (hcur : (s.states_.getD s.current_index_.toNat default).options_it <
      (s.states_.getD s.current_index_.toNat default).options.length)
    (hlt : s.current_index_ + 1 < (s.n_variables : Int)) :
    (s.stepAssign).InvPre := by
  obtain ⟨e1, e2, e3, e4, e5, e6, e7, e8, e9, e10⟩ := stepAssign_fields s
  obtain ⟨hvpos, hvmem, hwc, hwlen2, hap, ham, hsort, hpos, hcl, htrue, hineq⟩ :=
    stepAssign_core s h hci hcur
  refine ⟨?_, ?_, ?_, ?_, ?_, ?_, ?_, ?_, ?_, ?_, ?_, ?_, ?_, ?_, ?_, ?_, ?_, ?_⟩
  · rw [e2]; exact h.npos
  · rw [e7, e2, List.length_set]; exact h.alen
  · rw [e9, e2, List.length_set]; exact h.slen
  · rw [e5, e2]; exact h.vlen
  · rw [e4]; exact hwlen2
  · rw [e8]; omega
  · rw [e8, e2]; exact hlt
  · rw [e4]; exact h.hasvar
  · rw [e4, e5, e2]; exact h.vtcC
  · rw [e5, e4, e2]; exact h.vtcS
  · exact hwc
  · intro m hm hmci
    rw [e2] at hm
    rw [e8] at hmci
    exact hap m hm hmci
  · intro m hm hmci
    rw [e2] at hm
    rw [e8] at hmci
    exact ham m hm hmci
  · rw [e2]; exact hsort
  · rw [e2]; exact hpos
  · rw [e2]; exact hcl
  · intro m hm hmci
    rw [e2] at hm
    rw [e8] at hmci
    rw [e5, e4, e1]
    exact htrue m hm hmci
  · intro m hm hmci
    rw [e2] at hm
    rw [e8] at hmci
    rw [e6]
    exact hineq m hm hmci

lemma stepAssign_good (s : Solver) (h : s.Inv) (hci : 0 ≤ s.current_index_)
    (hcur : (s.states_.getD s.current_index_.toNat default).options_it <
      (s.states_.getD s.current_index_.toNat default).options.length)
    (heq : s.current_index_ + 1 = (s.n_variables : Int)) :
    s.GoodAssignment ((s.stepAssign).assignment_) := by
  obtain ⟨e1, e2, e3, e4, e5, e6, e7, e8, e9, e10⟩ := stepAssign_fields s
  obtain ⟨hvpos, hvmem, hwc, hwlen2, hap, ham, hsort, hpos, hcl, htrue, hineq⟩ :=
    stepAssign_core s h hci hcur
  have halen2 : (s.stepAssign).assignment_.length = s.n_variables := by
    rw [e7, List.length_set]
    exact h.alen
  refine ⟨halen2, ?_, ?_, ?_⟩
  · intro i hi
    exact hap i hi (by omega)
  · intro idx hidx
    obtain ⟨j0, hj0⟩ := h.hasvar idx hidx
    obtain ⟨⟨j1, hj1⟩, hlast⟩ := maxVarIdx_spec _ ⟨j0, hj0⟩
    set m := maxVarIdx (s.constraints_.getD idx ⟨0, 0, 0⟩) with hmdef
    have hj1le : (s.constraints_.getD idx ⟨0, 0, 0⟩).get j1 ≤ 0 := by omega
    obtain ⟨hmn, hmem⟩ := h.vtcC idx hidx j1 hj1le
    have htn : (-((s.constraints_.getD idx ⟨0, 0, 0⟩).get j1)).toNat = m := by omega
    rw [htn] at hmn hmem
    have hwmem := ham m hmn (by omega)
    have hist := htrue m hmn (by omega) _ hwmem idx hmem hlast
    have hcong : substFull ((s.stepAssign).assignment_.set m
        ((s.stepAssign).assignment_.getD m 0)) (s.constraints_.getD idx ⟨0, 0, 0⟩)
        = substFull ((s.stepAssign).assignment_) (s.constraints_.getD idx ⟨0, 0, 0⟩) := by
      apply substFull_congr
      intro j hj
      exact set_getD_self_eq _ m (by rw [halen2]; exact hmn) _
    rw [hcong] at hist
    exact hist
  · intro j k hjk hkn hjm
    have hkmem := ham k hkn (by omega)
    have hjcl := hineq k hkn (by omega) j hjk hjm
    intro heq2
    rw [heq2] at hjcl
    exact hjcl hkmem

lemma stepAssign_postyield (s : Solver) (h : s.Inv) (hci : 0 ≤ s.current_index_)
    (hcur : (s.states_.getD s.current_index_.toNat default).options_it <
      (s.states_.getD s.current_index_.toNat default).options.length)
    (heq : s.current_index_ + 1 = (s.n_variables : Int)) :
    ((s.stepAssign).UnAssign).Inv := by
  obtain ⟨e1, e2, e3, e4, e5, e6, e7, e8, e9, e10⟩ := stepAssign_fields s
  obtain ⟨hvpos, hvmem, hwc, hwlen2, hap, ham, hsort, hpos, hcl, htrue, hineq⟩ :=
    stepAssign_core s h hci hcur
  obtain ⟨u1, u2, u3, u4, u5, u6, u7, u8, u9⟩ := UnAssign_frame (s.stepAssign)
  have hwlen3 : ((s.stepAssign).UnAssign).working_constraints_.length
      = (s.stepAssign).working_constraints_.length := by
    by_cases hneg : (s.stepAssign).current_index_ - 1 < 0
    · rw [UnAssign_wc_neg _ hneg]
    · rw [UnAssign_wc_pos _ hneg, foldl_setSubst_length]
  refine ⟨?_, ?_, ?_, ?_, ?_, ?_, ?_, ?_, ?_, ?_, ?_, ?_, ?_, ?_, ?_, ?_, ?_, ?_⟩
  · rw [u2, e2]; exact h.npos
  · rw [u8, u2, e7, e2, List.length_set]; exact h.alen
  · rw [u7, u2, e9, e2, List.length_set]; exact h.slen
  · rw [u5, u2, e5, e2]; exact h.vlen
  · rw [hwlen3, u4, e4]; exact hwlen2
  · rw [u9, e8]; omega
  · rw [u9, u2, e8, e2]
    have := h.cihi
    omega
  · rw [u4, e4]; exact h.hasvar
  · rw [u4, u5, u2, e4, e5, e2]; exact h.vtcC
  · rw [u5, u4, u2, e5, e4, e2]; exact h.vtcS
  · refine UnAssign_WCInv (s.stepAssign) hwc ?_ ?_ ?_ ?_ ?_
    · rw [e4, e5, e2]
      exact h.vtcC
    · rw [e2, e5, e4]
      intro m hm idx hidx
      exact (h.vtcS m hm idx hidx).1
    · rw [e4]
      exact hwlen2
    · rw [e8]
      omega
    · rw [e8, e2]
      omega
  · intro m hm hmci
    rw [u2, e2] at hm
    rw [u9, e8] at hmci
    rw [u8]
    exact hap m hm (by omega)
  · intro m hm hmci
    rw [u2, e2] at hm
    rw [u9, e8] at hmci
    rw [u8, u7]
    exact ham m hm (by omega)
  · rw [u7, u2, e2]; exact hsort
  · rw [u7, u2, e2]; exact hpos
  · rw [u7, u2, e2]; exact hcl
  · intro m hm hmci
    rw [u2, e2] at hm
    rw [u9, e8] at hmci
    rw [u7, u5, e5, u4, e4, u1, e1, u8]
    exact htrue m hm (by omega)
  · intro m hm hmci
    rw [u2, e2] at hm
    rw [u9, e8] at hmci
    rw [u7, u6, e6, u8]
    exact hineq m hm (by omega)

lemma nextAssignmentLoop_succ (fuel : Nat) (s : Solver) :
    Solver.nextAssignmentLoop (fuel + 1) s =
      if s.current_index_ < 0 then (some [], { s with valid_ := false })
      else if (s.states_.getD s.current_index_.toNat default).options.length ≤
          (s.states_.getD s.current_index_.toNat default).options_it then
        Solver.nextAssignmentLoop fuel s.UnAssign
      else if (s.stepAssign).current_index_ = ((s.stepAssign).n_variables : Int) then
        (some (s.stepAssign).assignment_, (s.stepAssign).UnAssign)
      else Solver.nextAssignmentLoop fuel (s.stepAssign).GetOptions := rfl

lemma GoodAssignment_congr (s s' : Solver) (h1 : s'.n_variables = s.n_variables)
    (h2 : s'.constraints_ = s.constraints_) (h3 : s'.structure_ = s.structure_)
    (h4 : s'.may_equal_ = s.may_equal_) (a : List Int) :
    s'.GoodAssignment a ↔ s.GoodAssignment a := by
  unfold Solver.GoodAssignment
  rw [h1, h2, h3, h4]

lemma Inv_copy {s : Solver} (h : s.Inv) (b : Bool) :
    (Solver.Inv { s with valid_ := b }) :=
  ⟨h.npos, h.alen, h.slen, h.vlen, h.wlen, h.cilo, h.cihi, h.hasvar, h.vtcC, h.vtcS,
   h.wcinv, h.asgPos, h.asgMem, h.optsSorted, h.optsPos, h.cursorLe, h.optsTrue, h.optsIneq⟩

lemma loop_spec (fuel : Nat) : ∀ (s : Solver), WFStruct s.structure_ → s.Inv →
    (Solver.nextAssignmentLoop fuel s).2.Inv ∧
    (Solver.nextAssignmentLoop fuel s).2.structure_ = s.structure_ ∧
    (Solver.nextAssignmentLoop fuel s).2.n_variables = s.n_variables ∧
    (Solver.nextAssignmentLoop fuel s).2.constraints_ = s.constraints_ ∧
    (Solver.nextAssignmentLoop fuel s).2.var_to_constraints_ = s.var_to_constraints_ ∧
    (Solver.nextAssignmentLoop fuel s).2.may_equal_ = s.may_equal_ ∧
    (∀ a, (Solver.nextAssignmentLoop fuel s).1 = some a → a ≠ [] → s.GoodAssignment a) := by
  induction fuel with
  | zero =>
    intro s hW hInv
    exact ⟨hInv, rfl, rfl, rfl, rfl, rfl,
      fun a ha hne => by simp [Solver.nextAssignmentLoop] at ha⟩
  | succ fuel ih =>
    intro s hW hInv
    rw [nextAssignmentLoop_succ]
    by_cases hc1 : s.current_index_ < 0
    · rw [if_pos hc1]
      refine ⟨Inv_copy hInv false, rfl, rfl, rfl, rfl, rfl, ?_⟩
      intro a ha hne
      exact absurd (Option.some.inj ha).symm hne
    · rw [if_neg hc1]
      have hci : 0 ≤ s.current_index_ := by omega
      by_cases hc2 : (s.states_.getD s.current_index_.toNat default).options.length ≤
          (s.states_.getD s.current_index_.toNat default).options_it
      · rw [if_pos hc2]
        obtain ⟨u1, u2, u3, u4, u5, u6, u7, u8, u9⟩ := UnAssign_frame s
        have hW' : WFStruct (s.UnAssign).structure_ := by rw [u1]; exact hW
        have hInv' := Inv_UnAssign s hInv hci
        obtain ⟨r1, r2, r3, r4, r5, r6, r7⟩ := ih s.UnAssign hW' hInv'
        refine ⟨r1, r2.trans u1, r3.trans u2, r4.trans u4, r5.trans u5, r6.trans u6, ?_⟩
        intro a ha hne
        exact (GoodAssignment_congr s s.UnAssign u2 u4 u1 u6 a).mp (r7 a ha hne)
      · rw [if_neg hc2]
        have hcur : (s.states_.getD s.current_index_.toNat default).options_it <
            (s.states_.getD s.current_index_.toNat default).options.length := by omega
        obtain ⟨e1, e2, e3, e4, e5, e6, e7, e8, e9, e10⟩ := stepAssign_fields s
        by_cases hc3 : (s.stepAssign).current_index_ = ((s.stepAssign).n_variables : Int)
        · rw [if_pos hc3]
          have heq : s.current_index_ + 1 = (s.n_variables : Int) := by
            rw [e8, e2] at hc3
            exact hc3
          obtain ⟨u1, u2, u3, u4, u5, u6, u7, u8, u9⟩ := UnAssign_frame (s.stepAssign)
          refine ⟨stepAssign_postyield s hInv hci hcur heq,
            u1.trans e1, u2.trans e2, u4.trans e4, u5.trans e5, u6.trans e6, ?_⟩
          intro a ha hne
          rw [← Option.some.inj ha]
          exact stepAssign_good s hInv hci hcur heq
        · rw [if_neg hc3]
          have hlt : s.current_index_ + 1 < (s.n_variables : Int) := by
            rw [e8, e2] at hc3
            have := hInv.cihi
            omega
          obtain ⟨f1, f2, f3, f4, f5, f6, f7, f8, f9⟩ := GetOptions_frame (s.stepAssign)
          have hW2 : WFStruct ((s.stepAssign).GetOptions).structure_ := by
            rw [f1, e1]
            exact hW
          have hInv2 : ((s.stepAssign).GetOptions).Inv := by
            apply Inv_GetOptions (s.stepAssign) (by rw [e1]; exact hW)
              (stepAssign_invpre s hInv hci hcur hlt)
            rw [e8]
            omega
          obtain ⟨r1, r2, r3, r4, r5, r6, r7⟩ := ih ((s.stepAssign).GetOptions) hW2 hInv2
          refine ⟨r1, r2.trans (f1.trans e1), r3.trans (f2.trans e2),
            r4.trans (f4.trans e4), r5.trans (f6.trans e5), r6.trans (f7.trans e6), ?_⟩
          intro a ha hne
          have hg := r7 a ha hne
          exact (GoodAssignment_congr s ((s.stepAssign).GetOptions)
            (f2.trans e2) (f4.trans e4) (f1.trans e1) (f7.trans e6) a).mp hg

lemma registerLoop_some (n : Nat) (c : Triplet) (keptLen : Nat) (js : List (Fin 3)) :
    ∀ (any : Bool) (vtc : List (List Nat)) (any' : Bool) (vtc' : List (List Nat)),
      Solver.registerLoop n c keptLen js any vtc = some (any', vtc') →
      vtc.length = n →
      vtc'.length = n ∧
      (∀ m i, i ∈ vtc.getD m [] → i ∈ vtc'.getD m []) ∧
      (∀ m i, i ∈ vtc'.getD m [] → i ∈ vtc.getD m [] ∨
        (i = keptLen ∧ m < n ∧ ∃ j ∈ js, c.get j ≤ 0 ∧ (-(c.get j)).toNat = m)) ∧
      (∀ j ∈ js, c.get j ≤ 0 → (-(c.get j)).toNat < n ∧
        keptLen ∈ vtc'.getD (-(c.get j)).toNat []) ∧
      (any' = true ↔ any = true ∨ ∃ j ∈ js, c.get j ≤ 0) ∧
      (∀ m, (∀ j ∈ js, ¬ (c.get j ≤ 0 ∧ (-(c.get j)).toNat = m)) →
        vtc'.getD m [] = vtc.getD m []) := by
  induction js with
  | nil =>
    intro any vtc any' vtc' hreg hlen
    rw [Solver.registerLoop] at hreg
    obtain ⟨h1, h2⟩ : any = any' ∧ vtc = vtc' := by
      have := Option.some.inj hreg
      exact ⟨congrArg Prod.fst this, congrArg Prod.snd this⟩
    subst h1
    subst h2
    refine ⟨hlen, fun m i h => h, fun m i h => Or.inl h, by simp, ?_, fun m _ => rfl⟩
    simp
  | cons j js ih =>
    intro any vtc any' vtc' hreg hlen
    rw [Solver.registerLoop] at hreg
    by_cases hx : IsVariable (c.get j)
    · rw [if_pos hx] at hreg
      have hxle : c.get j ≤ 0 := hx
      by_cases hn : (-(c.get j)).toNat < n
      · rw [if_pos hn] at hreg
        set mm := (-(c.get j)).toNat with hmm
        set vtc2 := vtc.set mm (vtc.getD mm [] ++ [keptLen]) with hvtc2
        have hlen2 : vtc2.length = n := by rw [hvtc2, List.length_set]; exact hlen
        have hmmlt : mm < vtc.length := by omega
        have hget2self : vtc2.getD mm [] = vtc.getD mm [] ++ [keptLen] := by
          rw [hvtc2]
          exact getD_set_self _ _ _ _ hmmlt
        have hget2ne : ∀ m, m ≠ mm → vtc2.getD m [] = vtc.getD m [] := by
          intro m hm
          rw [hvtc2]
          exact getD_set_ne _ _ _ _ _ (fun he => hm he.symm)
        obtain ⟨k1, k2, k3, k4, k5, k6⟩ := ih true vtc2 any' vtc' hreg hlen2
        refine ⟨k1, ?_, ?_, ?_, ?_, ?_⟩
        · intro m i hi
          apply k2
          by_cases hm : m = mm
          · subst hm
            rw [hget2self]
            exact List.mem_append_left _ hi
          · rw [hget2ne m hm]
            exact hi
        · intro m i hi
          rcases k3 m i hi with h2 | ⟨hik, hmn, jj, hjj, hjle, hjm⟩
          · by_cases hm : m = mm
            · subst hm
              rw [hget2self] at h2
              rcases List.mem_append.mp h2 with h3 | h3
              · exact Or.inl h3
              · right
                refine ⟨by simpa using h3, hn, j, List.mem_cons_self _ _, hxle, rfl⟩
            · rw [hget2ne m hm] at h2
              exact Or.inl h2
          · exact Or.inr ⟨hik, hmn, jj, List.mem_cons_of_mem _ hjj, hjle, hjm⟩
        · intro j2 hj2 hj2le
          rcases List.mem_cons.mp hj2 with rfl | hj2m
          · refine ⟨hn, ?_⟩
            apply k2
            rw [hget2self]
            exact List.mem_append_right _ (List.mem_singleton.mpr rfl)
          · exact k4 j2 hj2m hj2le
        · rw [k5]
          constructor
          · intro hh
            right
            rcases hh with hh | ⟨jj, hjj, hjle⟩
            · exact ⟨j, List.mem_cons_self _ _, hxle⟩
            · exact ⟨jj, List.mem_cons_of_mem _ hjj, hjle⟩
          · intro hh
            exact Or.inl rfl
        · intro m hm
          have hmne : m ≠ mm := by
            intro he
            exact hm j (List.mem_cons_self _ _) ⟨hxle, by omega⟩
          rw [k6 m (fun jj hjj => hm jj (List.mem_cons_of_mem _ hjj)), hget2ne m hmne]
      · rw [if_neg hn] at hreg
        cases hreg
    · rw [if_neg hx] at hreg
      have hxgt : ¬ (c.get j ≤ 0) := hx
      obtain ⟨k1, k2, k3, k4, k5, k6⟩ := ih any vtc any' vtc' hreg hlen
      refine ⟨k1, k2, ?_, ?_, ?_, ?_⟩
      · intro m i hi
        rcases k3 m i hi with h2 | ⟨hik, hmn, jj, hjj, hjle, hjm⟩
        · exact Or.inl h2
        · exact Or.inr ⟨hik, hmn, jj, List.mem_cons_of_mem _ hjj, hjle, hjm⟩
      · intro j2 hj2 hj2le
        rcases List.mem_cons.mp hj2 with rfl | hj2m
        · exact absurd hj2le hxgt
        · exact k4 j2 hj2m hj2le
      · rw [k5]
        constructor
        · rintro (hh | ⟨jj, hjj, hjle⟩)
          · exact Or.inl hh
          · exact Or.inr ⟨jj, List.mem_cons_of_mem _ hjj, hjle⟩
        · rintro (hh | ⟨jj, hjj, hjle⟩)
          · exact Or.inl hh
          · rcases List.mem_cons.mp hjj with rfl | hjm
            · exact absurd hjle hxgt
            · exact Or.inr ⟨jj, hjm, hjle⟩
      · intro m hm
        exact k6 m (fun jj hjj => hm jj (List.mem_cons_of_mem _ hjj))

lemma getD_append_left {α : Type} (l l' : List α) (i : Nat) (d : α) (h : i < l.length) :
    (l ++ l').getD i d = l.getD i d := by
  rw [List.getD_eq_getElem?_getD, List.getD_eq_getElem?_getD, List.getElem?_append_left h]

lemma getD_append_self {α : Type} (l : List α) (c d : α) :
    (l ++ [c]).getD l.length d = c := by
  rw [List.getD_eq_getElem?_getD, List.getElem?_concat_length]
  rfl

/-- The constructor-loop invariant over the partial `constraints_` list and the
partial `var_to_constraints_` table. -/
def BuildPre (n : Nat) (kept : List Triplet) (vtc : List (List Nat)) : Prop :=
  vtc.length = n ∧
  (∀ idx, idx < kept.length → ∃ j : Fin 3, (kept.getD idx ⟨0, 0, 0⟩).get j ≤ 0) ∧
  (∀ idx, idx < kept.length → ∀ j : Fin 3, (kept.getD idx ⟨0, 0, 0⟩).get j ≤ 0 →
    (-((kept.getD idx ⟨0, 0, 0⟩).get j)).toNat < n ∧
    idx ∈ vtc.getD (-((kept.getD idx ⟨0, 0, 0⟩).get j)).toNat []) ∧
  (∀ m, m < n → ∀ idx ∈ vtc.getD m [], idx < kept.length ∧
    ∃ j : Fin 3, (kept.getD idx ⟨0, 0, 0⟩).get j = -(m : Int))

lemma buildLoop_spec (struc : Structure) (n : Nat) (cs : List Triplet) :
    ∀ (kept : List Triplet) (vtc : List (List Nat)) (valid : Bool)
      (kept' : List Triplet) (vtc' : List (List Nat)),
      Solver.buildLoop struc n cs kept vtc = some (valid, kept', vtc') →
      BuildPre n kept vtc →
      BuildPre n kept' vtc' ∧
      (∀ c ∈ kept, c ∈ kept') ∧
      (valid = true → ∀ c ∈ cs, (∀ j : Fin 3, 0 < c.get j) → struc.IsTrue c) ∧
      (valid = true → ∀ c ∈ cs, (∃ j : Fin 3, c.get j ≤ 0) → c ∈ kept') ∧
      (∀ k, k < n → vtc.getD k [] = [] →
        (∀ c ∈ cs, ∀ j : Fin 3, c.get j ≠ -(k : Int)) → vtc'.getD k [] = []) := by
  have hall3 : ∀ j : Fin 3, j ∈ ([0, 1, 2] : List (Fin 3)) := by decide
  induction cs with
  | nil =>
    intro kept vtc valid kept' vtc' hbuild hpre
    rw [Solver.buildLoop] at hbuild
    have h3 := Option.some.inj hbuild
    obtain ⟨hv, hk, hvt⟩ : valid = true ∧ kept' = kept ∧ vtc' = vtc := by
      refine ⟨(congrArg Prod.fst h3).symm, ?_, ?_⟩
      · exact (congrArg (fun p => p.2.1) h3).symm
      · exact (congrArg (fun p => p.2.2) h3).symm
    subst hk
    subst hvt
    exact ⟨hpre, fun c hc => hc, fun _ c hc => absurd hc (List.not_mem_nil c),
      fun _ c hc => absurd hc (List.not_mem_nil c), fun k _ hk _ => hk⟩
  | cons c cs ih =>
    intro kept vtc valid kept' vtc' hbuild hpre
    obtain ⟨hlen, hhas, hC, hS⟩ := hpre
    rw [Solver.buildLoop] at hbuild
    cases hreg : Solver.registerLoop n c kept.length [0, 1, 2] false vtc with
    | none =>
      rw [hreg] at hbuild
      cases hbuild
    | some p =>
      obtain ⟨any, vtc2⟩ := p
      rw [hreg] at hbuild
      have hbuild2 : (if any = true then Solver.buildLoop struc n cs (kept ++ [c]) vtc2
          else if ¬ struc.IsTrue c then some (false, kept, vtc2)
          else Solver.buildLoop struc n cs kept vtc2) = some (valid, kept', vtc') := hbuild
      clear hbuild
      rename' hbuild2 => hbuild
      obtain ⟨k1, k2, k3, k4, k5, k6⟩ :=
        registerLoop_some n c kept.length [0, 1, 2] false vtc any vtc2 hreg hlen
      by_cases hany : any = true
      · rw [if_pos hany] at hbuild
        have hvarc : ∃ j : Fin 3, c.get j ≤ 0 := by
          rcases k5.mp hany with hh | ⟨j, _, hj⟩
          · cases hh
          · exact ⟨j, hj⟩
        have hpre2 : BuildPre n (kept ++ [c]) vtc2 := by
          refine ⟨k1, ?_, ?_, ?_⟩
          · intro idx hidx
            rw [List.length_append, List.length_singleton] at hidx
            by_cases hlt : idx < kept.length
            · rw [getD_append_left _ _ _ _ hlt]
              exact hhas idx hlt
            · have : idx = kept.length := by omega
              subst this
              rw [getD_append_self]
              exact hvarc
          · intro idx hidx j hj
            rw [List.length_append, List.length_singleton] at hidx
            by_cases hlt : idx < kept.length
            · rw [getD_append_left _ _ _ _ hlt] at hj ⊢
              obtain ⟨hn1, hn2⟩ := hC idx hlt j hj
              exact ⟨hn1, k2 _ _ hn2⟩
            · have : idx = kept.length := by omega
              subst this
              rw [getD_append_self] at hj ⊢
              exact (k4 j (hall3 j) hj).imp_left id
          · intro m hm idx hidx
            rcases k3 m idx hidx with hold | ⟨hik, hmn, jj, _, hjle, hjm⟩
            · obtain ⟨hlt, j, hj⟩ := hS m hm idx hold
              rw [getD_append_left _ _ _ _ hlt]
              refine ⟨by rw [List.length_append, List.length_singleton]; omega, j, hj⟩
            · subst hik
              rw [getD_append_self]
              refine ⟨by rw [List.length_append, List.length_singleton]; omega, jj, by omega⟩
        obtain ⟨r1, r2, r3, r4, r5⟩ := ih (kept ++ [c]) vtc2 valid kept' vtc' hbuild hpre2
        refine ⟨r1, ?_, ?_, ?_, ?_⟩
        · intro c2 hc2
          exact r2 c2 (List.mem_append_left _ hc2)
        · intro hvd c2 hc2 hpos2
          rcases List.mem_cons.mp hc2 with rfl | hc2m
          · obtain ⟨j, hj⟩ := hvarc
            have := hpos2 j
            omega
          · exact r3 hvd c2 hc2m hpos2
        · intro hvd c2 hc2 hvar2
          rcases List.mem_cons.mp hc2 with rfl | hc2m
          · exact r2 c2 (List.mem_append_right _ (List.mem_singleton.mpr rfl))
          · exact r4 hvd c2 hc2m hvar2
        · intro k hk hknil hnomem
          have hstep : vtc2.getD k [] = vtc.getD k [] := by
            apply k6
            intro jj _ hcc
            have := hnomem c (List.mem_cons_self _ _) jj
            omega
          apply r5 k hk (by rw [hstep]; exact hknil)
          intro c2 hc2 jj
          exact hnomem c2 (List.mem_cons_of_mem _ hc2) jj
      · have hanyf : any = false := by
          cases any
          · rfl
          · exact absurd rfl hany
        rw [if_neg (by rw [hanyf]; exact Bool.false_ne_true)] at hbuild
        have hnovar : ¬ ∃ j : Fin 3, c.get j ≤ 0 := by
          intro ⟨j, hj⟩
          have : any = true := k5.mpr (Or.inr ⟨j, hall3 j, hj⟩)
          rw [hanyf] at this
          cases this
        have hpre2 : BuildPre n kept vtc2 := by
          refine ⟨k1, hhas, ?_, ?_⟩
          · intro idx hidx j hj
            obtain ⟨hn1, hn2⟩ := hC idx hidx j hj
            exact ⟨hn1, k2 _ _ hn2⟩
          · intro m hm idx hidx
            rcases k3 m idx hidx with hold | ⟨hik, hmn, jj, _, hjle, hjm⟩
            · exact hS m hm idx hold
            · exact absurd ⟨jj, hjle⟩ hnovar
        by_cases htrue : struc.IsTrue c
        · rw [if_neg (by simpa using htrue)] at hbuild
          obtain ⟨r1, r2, r3, r4, r5⟩ := ih kept vtc2 valid kept' vtc' hbuild hpre2
          refine ⟨r1, r2, ?_, ?_, ?_⟩
          · intro hvd c2 hc2 hpos2
            rcases List.mem_cons.mp hc2 with rfl | hc2m
            · exact htrue
            · exact r3 hvd c2 hc2m hpos2
          · intro hvd c2 hc2 hvar2
            rcases List.mem_cons.mp hc2 with rfl | hc2m
            · exact absurd hvar2 hnovar
            · exact r4 hvd c2 hc2m hvar2
          · intro k hk hknil hnomem
            have hstep : vtc2.getD k [] = vtc.getD k [] := by
              apply k6
              intro jj _ hcc
              have := hnomem c (List.mem_cons_self _ _) jj
              omega
            apply r5 k hk (by rw [hstep]; exact hknil)
            intro c2 hc2 jj
            exact hnomem c2 (List.mem_cons_of_mem _ hc2) jj
        · rw [if_pos (by simpa using htrue)] at hbuild
          have h3 := Option.some.inj hbuild
          obtain ⟨hv, hk, hvt⟩ : valid = false ∧ kept' = kept ∧ vtc' = vtc2 := by
            refine ⟨(congrArg Prod.fst h3).symm, ?_, ?_⟩
            · exact (congrArg (fun p => p.2.1) h3).symm
            · exact (congrArg (fun p => p.2.2) h3).symm
          subst hk
          subst hvt
          subst hv
          refine ⟨hpre2, fun c2 hc2 => hc2, ?_, ?_, ?_⟩
          · intro hvd
            cases hvd
          · intro hvd
            cases hvd
          · intro k hk hknil hnomem
            have hstep := k6 k (fun jj _ hcc => by
              have := hnomem c (List.mem_cons_self _ _) jj
              omega)
            rw [hstep]
            exact hknil

lemma getD_replicate {α : Type} (n : Nat) (a : α) (m : Nat) :
    (List.replicate n a).getD m a = a := by
  rw [List.getD_eq_getElem?_getD, List.getElem?_replicate]
  split_ifs <;> rfl

lemma make_cases (struc : Structure) (n : Nat) (cs : List Triplet) (me : List (List Nat))
    (s₀ : Solver) (hmk : Solver.make struc n cs me = some s₀) :
    n ≠ 0 ∧ ∃ (valid : Bool) (kept : List Triplet) (vtc : List (List Nat)),
      Solver.buildLoop struc n cs [] (List.replicate n []) = some (valid, kept, vtc) ∧
      ((valid = true ∧ s₀ = (⟨struc, n, valid, kept, kept, vtc, me, List.replicate n 0,
          List.replicate n default, 0⟩ : Solver).GetOptions) ∨
       (valid = false ∧ s₀ = ⟨struc, n, valid, kept, [], vtc, me, List.replicate n 0,
          List.replicate n default, 0⟩)) := by
  unfold Solver.make at hmk
  by_cases hn : n = 0
  · rw [if_pos hn] at hmk
    cases hmk
  · rw [if_neg hn] at hmk
    refine ⟨hn, ?_⟩
    cases hbuild : Solver.buildLoop struc n cs [] (List.replicate n []) with
    | none =>
      rw [hbuild] at hmk
      cases hmk
    | some p =>
      obtain ⟨valid, kept, vtc⟩ := p
      rw [hbuild] at hmk
      have hs := (Option.some.inj hmk).symm
      refine ⟨valid, kept, vtc, rfl, ?_⟩
      cases valid
      · exact Or.inr ⟨rfl, hs⟩
      · exact Or.inl ⟨rfl, hs⟩

lemma buildPre_init (n : Nat) : BuildPre n [] (List.replicate n []) := by
  refine ⟨List.length_replicate n [], ?_, ?_, ?_⟩
  · intro idx hidx
    cases hidx
  · intro idx hidx
    cases hidx
  · intro m hm idx hidx
    rw [getD_replicate] at hidx
    cases hidx

lemma base_invpre (struc : Structure) (n : Nat) (kept : List Triplet)
    (vtc : List (List Nat)) (me : List (List Nat)) (valid : Bool)
    (hn : 0 < n) (hpre : BuildPre n kept vtc) :
    Solver.InvPre ⟨struc, n, valid, kept, kept, vtc, me, List.replicate n 0,
      List.replicate n default, 0⟩ := by
  obtain ⟨hlen, hhas, hC, hS⟩ := hpre
  refine ⟨hn, List.length_replicate n 0, List.length_replicate n default, hlen, rfl,
    show (-1 : Int) ≤ 0 by omega,
    show (0 : Int) < (n : Int) by exact_mod_cast hn,
    hhas, hC, hS, ?_, ?_, ?_, ?_, ?_, ?_, ?_, ?_⟩
  · intro idx hidx j
    show (kept.getD idx ⟨0, 0, 0⟩).get j =
      if (kept.getD idx ⟨0, 0, 0⟩).get j ≤ 0 ∧
          -((kept.getD idx ⟨0, 0, 0⟩).get j) < (0 : Int) then
        (List.replicate n (0 : Int)).getD (-((kept.getD idx ⟨0, 0, 0⟩).get j)).toNat 0
      else (kept.getD idx ⟨0, 0, 0⟩).get j
    rw [if_neg (by omega)]
  · intro m hm hmci
    have hmci2 : (m : Int) < 0 := hmci
    omega
  · intro m hm hmci
    have hmci2 : (m : Int) < 0 := hmci
    omega
  · intro m hm
    show (((List.replicate n (default : SolverState)).getD m default).options).Pairwise (· < ·)
    rw [getD_replicate]
    exact List.Pairwise.nil
  · intro m hm v hv
    have hv2 : v ∈ ((List.replicate n (default : SolverState)).getD m default).options := hv
    rw [getD_replicate] at hv2
    cases hv2
  · intro m hm
    show ((List.replicate n (default : SolverState)).getD m default).options_it ≤
      ((List.replicate n (default : SolverState)).getD m default).options.length
    rw [getD_replicate]
    exact Nat.le_refl 0
  · intro m hm hmci
    have hmci2 : (m : Int) < 0 := hmci
    omega
  · intro m hm hmci
    have hmci2 : (m : Int) < 0 := hmci
    omega

lemma make_Inv (struc : Structure) (n : Nat) (cs : List Triplet) (me : List (List Nat))
    (s₀ : Solver) (hW : WFStruct struc) (hmk : Solver.make struc n cs me = some s₀)
    (hvalid : s₀.valid_ = true) : s₀.Inv := by
  obtain ⟨hn, valid, kept, vtc, hbuild, hcase⟩ := make_cases struc n cs me s₀ hmk
  obtain ⟨hpre, -, -, -, -⟩ :=
    buildLoop_spec struc n cs [] (List.replicate n []) valid kept vtc hbuild
      (buildPre_init n)
  rcases hcase with ⟨hv, hs⟩ | ⟨hv, hs⟩
  · subst hv
    rw [hs]
    apply Inv_GetOptions _ hW (base_invpre struc n kept vtc me true (by omega) hpre)
    exact le_refl 0
  · exfalso
    rw [hs] at hvalid
    rw [hv] at hvalid
    cases hvalid

lemma make_fields (struc : Structure) (n : Nat) (cs : List Triplet) (me : List (List Nat))
    (s₀ : Solver) (hmk : Solver.make struc n cs me = some s₀) :
    s₀.structure_ = struc ∧ s₀.n_variables = n ∧ s₀.may_equal_ = me := by
  obtain ⟨hn, valid, kept, vtc, hbuild, hcase⟩ := make_cases struc n cs me s₀ hmk
  rcases hcase with ⟨hv, hs⟩ | ⟨hv, hs⟩ <;> rw [hs]
  · obtain ⟨f1, f2, f3, f4, f5, f6, f7, f8, f9⟩ := GetOptions_frame
      (⟨struc, n, valid, kept, kept, vtc, me, List.replicate n 0,
        List.replicate n default, 0⟩ : Solver)
    exact ⟨f1, f2, f7⟩
  · exact ⟨rfl, rfl, rfl⟩

lemma make_ground (struc : Structure) (n : Nat) (cs : List Triplet) (me : List (List Nat))
    (s₀ : Solver) (hmk : Solver.make struc n cs me = some s₀) (hvalid : s₀.valid_ = true) :
    ∀ c ∈ cs, (∀ j : Fin 3, 0 < c.get j) → struc.IsTrue c := by
  obtain ⟨hn, valid, kept, vtc, hbuild, hcase⟩ := make_cases struc n cs me s₀ hmk
  obtain ⟨-, -, hground, -, -⟩ :=
    buildLoop_spec struc n cs [] (List.replicate n []) valid kept vtc hbuild
      (buildPre_init n)
  rcases hcase with ⟨hv, hs⟩ | ⟨hv, hs⟩
  · exact hground hv
  · exfalso
    rw [hs] at hvalid
    rw [hv] at hvalid
    cases hvalid

lemma make_param (struc : Structure) (n : Nat) (cs : List Triplet) (me : List (List Nat))
    (s₀ : Solver) (hmk : Solver.make struc n cs me = some s₀) (hvalid : s₀.valid_ = true) :
    ∀ c ∈ cs, (∃ j : Fin 3, c.get j ≤ 0) → c ∈ s₀.constraints_ := by
  obtain ⟨hn, valid, kept, vtc, hbuild, hcase⟩ := make_cases struc n cs me s₀ hmk
  obtain ⟨-, -, -, hparam, -⟩ :=
    buildLoop_spec struc n cs [] (List.replicate n []) valid kept vtc hbuild
      (buildPre_init n)
  rcases hcase with ⟨hv, hs⟩ | ⟨hv, hs⟩
  · have hcon : s₀.constraints_ = kept := by
      rw [hs]
      obtain ⟨f1, f2, f3, f4, f5, f6, f7, f8, f9⟩ := GetOptions_frame
        (⟨struc, n, valid, kept, kept, vtc, me, List.replicate n 0,
          List.replicate n default, 0⟩ : Solver)
      exact f4
    rw [hcon]
    exact hparam hv
  · exfalso
    rw [hs] at hvalid
    rw [hv] at hvalid
    cases hvalid

lemma NextAssignment_invalid (fuel : Nat) (s : Solver) (h : s.valid_ = false) :
    Solver.NextAssignment fuel s = (some [], s) := by
  unfold Solver.NextAssignment
  rw [if_pos (Or.inl h)]

lemma NextAssignment_spec (fuel : Nat) (s : Solver) (hW : WFStruct s.structure_)
    (hInv : s.valid_ = true → s.Inv) :
    ((Solver.NextAssignment fuel s).2.valid_ = true →
      (Solver.NextAssignment fuel s).2.Inv) ∧
    (Solver.NextAssignment fuel s).2.structure_ = s.structure_ ∧
    (Solver.NextAssignment fuel s).2.n_variables = s.n_variables ∧
    (Solver.NextAssignment fuel s).2.constraints_ = s.constraints_ ∧
    (Solver.NextAssignment fuel s).2.var_to_constraints_ = s.var_to_constraints_ ∧
    (Solver.NextAssignment fuel s).2.may_equal_ = s.may_equal_ ∧
    (∀ a, (Solver.NextAssignment fuel s).1 = some a → a ≠ [] →
      s.GoodAssignment a ∧ s.valid_ = true) := by
  unfold Solver.NextAssignment
  by_cases hguard : s.valid_ = false ∨ s.n_variables = 0
  · rw [if_pos hguard]
    exact ⟨hInv, rfl, rfl, rfl, rfl, rfl,
      fun a ha hne => absurd (Option.some.inj ha).symm hne⟩
  · rw [if_neg hguard]
    push_neg at hguard
    have hvalid : s.valid_ = true := by
      cases hb : s.valid_
      · exact absurd hb hguard.1
      · rfl
    obtain ⟨r1, r2, r3, r4, r5, r6, r7⟩ := loop_spec fuel s hW (hInv hvalid)
    exact ⟨fun _ => r1, r2, r3, r4, r5, r6, fun a ha hne => ⟨r7 a ha hne, hvalid⟩⟩

lemma runCalls_spec (fuels : List Nat) : ∀ (s : Solver), WFStruct s.structure_ →
    (s.valid_ = true → s.Inv) →
    ((Solver.runCalls fuels s).valid_ = true → (Solver.runCalls fuels s).Inv) ∧
    (Solver.runCalls fuels s).structure_ = s.structure_ ∧
    (Solver.runCalls fuels s).n_variables = s.n_variables ∧
    (Solver.runCalls fuels s).constraints_ = s.constraints_ ∧
    (Solver.runCalls fuels s).var_to_constraints_ = s.var_to_constraints_ ∧
    (Solver.runCalls fuels s).may_equal_ = s.may_equal_ := by
  induction fuels with
  | nil =>
    intro s hW hInv
    exact ⟨hInv, rfl, rfl, rfl, rfl, rfl⟩
  | cons fuel fuels ih =>
    intro s hW hInv
    rw [Solver.runCalls]
    obtain ⟨r1, r2, r3, r4, r5, r6, r7⟩ := NextAssignment_spec fuel s hW hInv
    obtain ⟨q1, q2, q3, q4, q5, q6⟩ :=
      ih (Solver.NextAssignment fuel s).2 (by rw [r2]; exact hW) r1
    exact ⟨q1, q2.trans r2, q3.trans r3, q4.trans r4, q5.trans r5, q6.trans r6⟩

lemma loop_valid_mono (fuel : Nat) : ∀ (s : Solver),
    (Solver.nextAssignmentLoop fuel s).2.valid_ = true → s.valid_ = true := by
  induction fuel with
  | zero => exact fun s h => h
  | succ fuel ih =>
    intro s h
    rw [nextAssignmentLoop_succ] at h
    by_cases hc1 : s.current_index_ < 0
    · rw [if_pos hc1] at h
      cases h
    · rw [if_neg hc1] at h
      by_cases hc2 : (s.states_.getD s.current_index_.toNat default).options.length ≤
          (s.states_.getD s.current_index_.toNat default).options_it
      · rw [if_pos hc2] at h
        have := ih s.UnAssign h
        rw [(UnAssign_frame s).2.2.1] at this
        exact this
      · rw [if_neg hc2] at h
        by_cases hc3 : (s.stepAssign).current_index_ = ((s.stepAssign).n_variables : Int)
        · rw [if_pos hc3] at h
          have h2 : ((s.stepAssign).UnAssign).valid_ = s.valid_ :=
            ((UnAssign_frame (s.stepAssign)).2.2.1).trans (stepAssign_fields s).2.2.1
          rw [h2] at h
          exact h
        · rw [if_neg hc3] at h
          have := ih ((s.stepAssign).GetOptions) h
          rw [(GetOptions_frame (s.stepAssign)).2.2.1, (stepAssign_fields s).2.2.1] at this
          exact this

lemma NextAssignment_valid_mono (fuel : Nat) (s : Solver) :
    (Solver.NextAssignment fuel s).2.valid_ = true → s.valid_ = true := by
  unfold Solver.NextAssignment
  by_cases hguard : s.valid_ = false ∨ s.n_variables = 0
  · rw [if_pos hguard]
    exact fun h => h
  · rw [if_neg hguard]
    exact loop_valid_mono fuel s

lemma runCalls_valid_mono (fuels : List Nat) : ∀ (s : Solver),
    (Solver.runCalls fuels s).valid_ = true → s.valid_ = true := by
  induction fuels with
  | nil => exact fun s h => h
  | cons fuel fuels ih =>
    intro s h
    rw [Solver.runCalls] at h
    exact NextAssignment_valid_mono fuel s (ih _ h)

lemma runCalls_invalid (fuels : List Nat) : ∀ (s : Solver), s.valid_ = false →
    Solver.runCalls fuels s = s := by
  induction fuels with
  | nil => exact fun s _ => rfl
  | cons fuel fuels ih =>
    intro s h
    rw [Solver.runCalls, NextAssignment_invalid fuel s h]
    exact ih s h

lemma loop_frame (fuel : Nat) : ∀ (s : Solver),
    (Solver.nextAssignmentLoop fuel s).2.structure_ = s.structure_ ∧
    (Solver.nextAssignmentLoop fuel s).2.n_variables = s.n_variables ∧
    (Solver.nextAssignmentLoop fuel s).2.constraints_ = s.constraints_ ∧
    (Solver.nextAssignmentLoop fuel s).2.var_to_constraints_ = s.var_to_constraints_ ∧
    (Solver.nextAssignmentLoop fuel s).2.may_equal_ = s.may_equal_ := by
  induction fuel with
  | zero => exact fun s => ⟨rfl, rfl, rfl, rfl, rfl⟩
  | succ fuel ih =>
    intro s
    rw [nextAssignmentLoop_succ]
    by_cases hc1 : s.current_index_ < 0
    · rw [if_pos hc1]
      exact ⟨rfl, rfl, rfl, rfl, rfl⟩
    · rw [if_neg hc1]
      by_cases hc2 : (s.states_.getD s.current_index_.toNat default).options.length ≤
          (s.states_.getD s.current_index_.toNat default).options_it
      · rw [if_pos hc2]
        obtain ⟨u1, u2, u3, u4, u5, u6, u7, u8, u9⟩ := UnAssign_frame s
        obtain ⟨q1, q2, q3, q4, q5⟩ := ih s.UnAssign
        exact ⟨q1.trans u1, q2.trans u2, q3.trans u4, q4.trans u5, q5.trans u6⟩
      · rw [if_neg hc2]
        obtain ⟨e1, e2, e3, e4, e5, e6, e7, e8, e9, e10⟩ := stepAssign_fields s
        by_cases hc3 : (s.stepAssign).current_index_ = ((s.stepAssign).n_variables : Int)
        · rw [if_pos hc3]
          obtain ⟨u1, u2, u3, u4, u5, u6, u7, u8, u9⟩ := UnAssign_frame (s.stepAssign)
          exact ⟨u1.trans e1, u2.trans e2, u4.trans e4, u5.trans e5, u6.trans e6⟩
        · rw [if_neg hc3]
          obtain ⟨f1, f2, f3, f4, f5, f6, f7, f8, f9⟩ := GetOptions_frame (s.stepAssign)
          obtain ⟨q1, q2, q3, q4, q5⟩ := ih ((s.stepAssign).GetOptions)
          exact ⟨q1.trans (f1.trans e1), q2.trans (f2.trans e2), q3.trans (f4.trans e4),
            q4.trans (f6.trans e5), q5.trans (f7.trans e6)⟩

/-- The empty-domain invariant for an unconstrained variable `k`: its option
set is empty, and the search never rises past level `k`. -/
def QInv (k : Nat) (s : Solver) : Prop :=
  s.states_.length = s.n_variables ∧ k < s.n_variables ∧
  s.var_to_constraints_.getD k [] = [] ∧ s.current_index_ ≤ (k : Int) ∧
  (s.states_.getD k default).options = []

lemma loop_Q (k : Nat) (fuel : Nat) : ∀ (s : Solver), QInv k s →
    ((Solver.nextAssignmentLoop fuel s).1 = none ∨
      (Solver.nextAssignmentLoop fuel s).1 = some []) ∧
    QInv k (Solver.nextAssignmentLoop fuel s).2 := by
  induction fuel with
  | zero => exact fun s hQ => ⟨Or.inl rfl, hQ⟩
  | succ fuel ih =>
    intro s hQ
    obtain ⟨hq1, hq2, hq3, hq4, hq5⟩ := hQ
    rw [nextAssignmentLoop_succ]
    by_cases hc1 : s.current_index_ < 0
    · rw [if_pos hc1]
      exact ⟨Or.inr rfl, hq1, hq2, hq3, hq4, hq5⟩
    · rw [if_neg hc1]
      by_cases hc2 : (s.states_.getD s.current_index_.toNat default).options.length ≤
          (s.states_.getD s.current_index_.toNat default).options_it
      · rw [if_pos hc2]
        apply ih
        obtain ⟨u1, u2, u3, u4, u5, u6, u7, u8, u9⟩ := UnAssign_frame s
        refine ⟨by rw [u7, u2]; exact hq1, by rw [u2]; exact hq2,
          by rw [u5]; exact hq3, by rw [u9]; omega, by rw [u7]; exact hq5⟩
      · rw [if_neg hc2]
        have hcik : s.current_index_.toNat ≠ k := by
          intro he
          rw [he, hq5] at hc2
          exact hc2 (Nat.zero_le _)
        have hcilt : s.current_index_ < (k : Int) := by omega
        obtain ⟨e1, e2, e3, e4, e5, e6, e7, e8, e9, e10⟩ := stepAssign_fields s
        by_cases hc3 : (s.stepAssign).current_index_ = ((s.stepAssign).n_variables : Int)
        · exfalso
          rw [e8, e2] at hc3
          omega
        · rw [if_neg hc3]
          apply ih
          have hq1b : (s.stepAssign).states_.length = (s.stepAssign).n_variables := by
            rw [e9, e2, List.length_set]
            exact hq1
          have hq5b : ((s.stepAssign).states_.getD k default).options = [] := by
            rw [e9, getD_set_ne _ _ _ _ _ hcik]
            exact hq5
          have hci2 : 0 ≤ (s.stepAssign).current_index_ := by rw [e8]; omega
          have hci2k : (s.stepAssign).current_index_ ≤ (k : Int) := by rw [e8]; omega
          have hci2n : (s.stepAssign).current_index_ < ((s.stepAssign).n_variables : Int) := by
            rw [e8, e2]
            omega
          obtain ⟨f1, f2, f3, f4, f5, f6, f7, f8, f9⟩ := GetOptions_frame (s.stepAssign)
          have hgs := GetOptions_states (s.stepAssign) hci2 hci2n
          refine ⟨by rw [hgs, f2, List.length_set]; exact hq1b, by rw [f2, e2]; exact hq2,
            by rw [f6, e5]; exact hq3, by rw [f9]; exact hci2k, ?_⟩
          rw [hgs]
          by_cases hk2 : (s.stepAssign).current_index_.toNat = k
          · rw [hk2]
            have hklen : k < (s.stepAssign).states_.length := by
              rw [hq1b, e2]
              exact hq2
            rw [getD_set_self _ _ _ _ hklen]
            show (Solver.ineqFilter (Solver.getOptionsLoop _ _ _ _ false _) _ _ _) = []
            have hvtck : (s.stepAssign).var_to_constraints_.getD k [] = [] := by
              rw [e5]
              exact hq3
            rw [hvtck, getOptionsLoop_nil, hq5b, ineqFilter_nil]
          · rw [getD_set_ne _ _ _ _ _ hk2]
            exact hq5b

instance : Inhabited Solver :=
  ⟨⟨Structure.empty, 0, false, [], [], [], [], [], [], 0⟩⟩

lemma options_getD_set (l : List SolverState) (i : Nat) (e : SolverState) (k : Nat)
    (h : (l.getD k default).options = []) (he : i = k → e.options = []) :
    ((l.set i e).getD k default).options = [] := by
  by_cases hik : i = k
  · subst hik
    by_cases hil : i < l.length
    · rw [getD_set_self _ _ _ _ hil]
      exact he rfl
    · rw [List.set_eq_of_length_le (by omega)]
      exact h
  · rw [getD_set_ne _ _ _ _ _ hik]
    exact h

lemma make_Q (struc : Structure) (n : Nat) (cs : List Triplet) (me : List (List Nat))
    (s₀ : Solver) (k : Nat) (hmk : Solver.make struc n cs me = some s₀)
    (hk : k < n) (hnomem : ∀ c ∈ cs, ∀ j : Fin 3, c.get j ≠ -(k : Int)) :
    QInv k s₀ := by
  obtain ⟨hn, valid, kept, vtc, hbuild, hcase⟩ := make_cases struc n cs me s₀ hmk
  obtain ⟨hpre, hmono, hgr, hpar, hnil⟩ := buildLoop_spec struc n cs [] (List.replicate n [])
    valid kept vtc hbuild (buildPre_init n)
  have hvtck : vtc.getD k [] = [] := hnil k hk (getD_replicate n [] k) hnomem
  rcases hcase with ⟨hv, hs⟩ | ⟨hv, hs⟩
  · rw [hs]
    have hgs := GetOptions_states (⟨struc, n, valid, kept, kept, vtc, me,
      List.replicate n 0, List.replicate n default, 0⟩ : Solver)
      (by show (0 : Int) ≤ 0; omega) (by show (0 : Int) < (n : Int); omega)
    obtain ⟨f1, f2, f3, f4, f5, f6, f7, f8, f9⟩ := GetOptions_frame (⟨struc, n, valid, kept,
      kept, vtc, me, List.replicate n 0, List.replicate n default, 0⟩ : Solver)
    refine ⟨?_, ?_, ?_, ?_, ?_⟩
    · rw [hgs, f2, List.length_set, List.length_replicate]
    · rw [f2]
      exact hk
    · rw [f6]
      exact hvtck
    · rw [f9]
      show (0 : Int) ≤ (k : Int)
      omega
    · rw [hgs]
      apply options_getD_set
      · rw [getD_replicate]
        rfl
      · intro hik
        have hk0 : (0 : Nat) = k := hik
        subst hk0
        show Solver.ineqFilter (Solver.getOptionsLoop struc kept 0 (vtc.getD 0 []) false
          ((List.replicate n (default : SolverState)).getD 0 default).options)
          (List.replicate n 0) (me.getD 0 []) 0 = []
        rw [hvtck, getOptionsLoop_nil, getD_replicate]
        exact ineqFilter_nil _ _ _
  · rw [hs]
    refine ⟨?_, hk, hvtck, ?_, ?_⟩
    · show (List.replicate n (default : SolverState)).length = n
      rw [List.length_replicate]
    · show (0 : Int) ≤ (k : Int)
      omega
    · show ((List.replicate n (default : SolverState)).getD k default).options = []
      rw [getD_replicate]
      rfl

lemma NextAssignment_Q (k : Nat) (fuel : Nat) (s : Solver) (hQ : QInv k s) :
    ((Solver.NextAssignment fuel s).1 = none ∨ (Solver.NextAssignment fuel s).1 = some []) ∧
    QInv k (Solver.NextAssignment fuel s).2 := by
  unfold Solver.NextAssignment
  by_cases hg : s.valid_ = false ∨ s.n_variables = 0
  · rw [if_pos hg]
    exact ⟨Or.inr rfl, hQ⟩
  · rw [if_neg hg]
    exact loop_Q k fuel s hQ

lemma runCalls_Q (k : Nat) (fuels : List Nat) : ∀ (s : Solver), QInv k s →
    QInv k (Solver.runCalls fuels s) := by
  induction fuels with
  | nil => exact fun s hQ => hQ
  | cons fuel fuels ih =>
    intro s hQ
    rw [Solver.runCalls]
    exact ih _ (NextAssignment_Q k fuel s hQ).2

/-- C1: Soundness of the solver.  For every nonempty assignment `a` yielded by
`NextAssignment` (after any prefix of earlier calls) on a solver built over a
validly-constructed fact index, `a` assigns a positive node to each of the `n`
variables, and substituting `a` into every constraint supplied at construction
yields a fact present in the index. -/
theorem c1_solver_soundness
    (ops : List Op) (hops : validOps ops [])
    (struc : Structure) (hrun : Structure.runOps ops Structure.empty = some struc)
    (n : Nat) (cs : List Triplet) (me : List (List Nat)) (s₀ : Solver)
    (hmk : Solver.make struc n cs me = some s₀)
    (fuels : List Nat) (fuel : Nat) (a : List Int)
    (ha : (Solver.NextAssignment fuel (Solver.runCalls fuels s₀)).1 = some a)
    (hne : a ≠ []) :
    a.length = n ∧ (∀ i, i < n → 0 < a.getD i 0) ∧
    ∀ c ∈ cs, struc.IsTrue (substFull a c) := by
  have hW : WFStruct struc := runOps_WFStruct hops hrun
  obtain ⟨m1, m2, m3⟩ := make_fields struc n cs me s₀ hmk
  have hW0 : WFStruct s₀.structure_ := by rw [m1]; exact hW
  have hInv0 : s₀.valid_ = true → s₀.Inv := fun hv => make_Inv struc n cs me s₀ hW hmk hv
  obtain ⟨q1, q2, q3, q4, q5, q6⟩ := runCalls_spec fuels s₀ hW0 hInv0
  obtain ⟨r1, r2, r3, r4, r5, r6, r7⟩ := NextAssignment_spec fuel (Solver.runCalls fuels s₀)
    (by rw [q2]; exact hW0) q1
  obtain ⟨hg, hvalid_s⟩ := r7 a ha hne
  have hvalid0 : s₀.valid_ = true := runCalls_valid_mono fuels s₀ hvalid_s
  obtain ⟨hg1, hg2, hg3, hg4⟩ := hg
  have hsn : (Solver.runCalls fuels s₀).n_variables = n := q3.trans m2
  have hstru : (Solver.runCalls fuels s₀).structure_ = struc := q2.trans m1
  refine ⟨by rw [← hsn]; exact hg1, fun i hi => hg2 i (by omega), ?_⟩
  intro c hc
  by_cases hvar : ∃ j : Fin 3, c.get j ≤ 0
  · have hmem : c ∈ s₀.constraints_ := make_param struc n cs me s₀ hmk hvalid0 c hc hvar
    have hmem2 : c ∈ (Solver.runCalls fuels s₀).constraints_ := by rw [q4]; exact hmem
    obtain ⟨⟨idx, hidx⟩, hget⟩ := List.mem_iff_get.mp hmem2
    have hgd : (Solver.runCalls fuels s₀).constraints_.getD idx ⟨0, 0, 0⟩ = c := by
      rw [List.getD_eq_getElem _ _ hidx]
      exact hget
    have htr := hg3 idx hidx
    rw [hgd, hstru] at htr
    exact htr
  · push_neg at hvar
    have htrue := make_ground struc n cs me s₀ hmk hvalid0 c hc hvar
    have hsub : substFull a c = c := triplet_ext_get _ _ (fun j => by
      rw [substFull_get, if_neg (by have := hvar j; omega)])
    rw [hsub]
    exact htrue

/-- C4: Inequality enforcement.  For every nonempty assignment `a` yielded by
`NextAssignment` and every pair of variable indices `j < k` with `j` not a
member of `may_equal[k]`, the nodes assigned to `j` and `k` differ. -/
theorem c4_inequality_enforcement
    (ops : List Op) (hops : validOps ops [])
    (struc : Structure) (hrun : Structure.runOps ops Structure.empty = some struc)
    (n : Nat) (cs : List Triplet) (me : List (List Nat)) (s₀ : Solver)
    (hmk : Solver.make struc n cs me = some s₀)
    (fuels : List Nat) (fuel : Nat) (a : List Int)
    (ha : (Solver.NextAssignment fuel (Solver.runCalls fuels s₀)).1 = some a)
    (hne : a ≠ [])
    (j k : Nat) (hjk : j < k) (hk : k < n) (hjm : j ∉ me.getD k []) :
    a.getD j 0 ≠ a.getD k 0 := by
  have hW : WFStruct struc := runOps_WFStruct hops hrun
  obtain ⟨m1, m2, m3⟩ := make_fields struc n cs me s₀ hmk
  have hW0 : WFStruct s₀.structure_ := by rw [m1]; exact hW
  have hInv0 : s₀.valid_ = true → s₀.Inv := fun hv => make_Inv struc n cs me s₀ hW hmk hv
  obtain ⟨q1, q2, q3, q4, q5, q6⟩ := runCalls_spec fuels s₀ hW0 hInv0
  obtain ⟨r1, r2, r3, r4, r5, r6, r7⟩ := NextAssignment_spec fuel (Solver.runCalls fuels s₀)
    (by rw [q2]; exact hW0) q1
  obtain ⟨hg, hvalid_s⟩ := r7 a ha hne
  obtain ⟨hg1, hg2, hg3, hg4⟩ := hg
  have hsn : (Solver.runCalls fuels s₀).n_variables = n := q3.trans m2
  have hsme : (Solver.runCalls fuels s₀).may_equal_ = me := q6.trans m3
  exact hg4 j k hjk (by omega) (by rw [hsme]; exact hjm)

/-- C5: Ground-constraint infeasibility.  If a constraint with all three
positions positive is not a fact of the index at construction time, the
constructed solver is invalid and every subsequent `NextAssignment` call
returns the empty assignment. -/
theorem c5_ground_constraint_infeasibility
    (struc : Structure) (n : Nat) (cs : List Triplet) (me : List (List Nat))
    (s₀ : Solver) (hmk : Solver.make struc n cs me = some s₀)
    (c : Triplet) (hc : c ∈ cs) (hcpos : ∀ j : Fin 3, 0 < c.get j)
    (hcfalse : ¬ struc.IsTrue c) :
    s₀.valid_ = false ∧
    ∀ (fuels : List Nat) (fuel : Nat),
      (Solver.NextAssignment fuel (Solver.runCalls fuels s₀)).1 = some [] := by
  have hvf : s₀.valid_ = false := by
    cases hb : s₀.valid_
    · rfl
    · exact absurd (make_ground struc n cs me s₀ hmk hb c hc hcpos) hcfalse
  refine ⟨hvf, fun fuels fuel => ?_⟩
  rw [runCalls_invalid fuels s₀ hvf, NextAssignment_invalid fuel s₀ hvf]

/-- C6: Working-constraints invariant.  In any reachable valid solver state,
every position of `working_constraints_` whose original constraint holds a
variable with index below `current_index_` contains the node assigned to that
variable, and every other position still holds its original entry; moreover
the invariant is preserved across a further `Assign` of a positive node and
across `UnAssign`. -/
theorem c6_working_constraints_invariant
    (ops : List Op) (hops : validOps ops [])
    (struc : Structure) (hrun : Structure.runOps ops Structure.empty = some struc)
    (n : Nat) (cs : List Triplet) (me : List (List Nat)) (s₀ : Solver)
    (hmk : Solver.make struc n cs me = some s₀) (fuels : List Nat)
    (hvalid : (Solver.runCalls fuels s₀).valid_ = true) :
    (Solver.runCalls fuels s₀).WCInv ∧
    (∀ v : Int, 0 < v → 0 ≤ (Solver.runCalls fuels s₀).current_index_ →
      ((Solver.runCalls fuels s₀).Assign v).WCInv) ∧
    (0 ≤ (Solver.runCalls fuels s₀).current_index_ →
      ((Solver.runCalls fuels s₀).UnAssign).WCInv) := by
  have hW : WFStruct struc := runOps_WFStruct hops hrun
  obtain ⟨m1, m2, m3⟩ := make_fields struc n cs me s₀ hmk
  have hW0 : WFStruct s₀.structure_ := by rw [m1]; exact hW
  have hInv0 : s₀.valid_ = true → s₀.Inv := fun hv => make_Inv struc n cs me s₀ hW hmk hv
  obtain ⟨q1, q2, q3, q4, q5, q6⟩ := runCalls_spec fuels s₀ hW0 hInv0
  have hInv := q1 hvalid
  refine ⟨hInv.wcinv, ?_, ?_⟩
  · intro v hv hci
    exact Assign_WCInv _ hInv.toPre hci v hv
  · intro hci
    exact UnAssign_WCInv _ hInv.wcinv hInv.vtcC
      (fun m hm idx hidx => (hInv.vtcS m hm idx hidx).1) hInv.wlen hci
      (le_of_lt hInv.cihi)

/-- C9: Unconstrained-variable edge case.  If variable `k < n` occurs in no
constraint, then after construction and any sequence of calls the option set
stored for level `k` is empty, and every `NextAssignment` call either
exhausts its fuel or returns the empty assignment — the solver never yields
an actual assignment. -/
theorem c9_unconstrained_variable_empty
    (struc : Structure) (n : Nat) (cs : List Triplet) (me : List (List Nat))
    (s₀ : Solver) (hmk : Solver.make struc n cs me = some s₀)
    (k : Nat) (hk : k < n) (hnomem : ∀ c ∈ cs, ∀ j : Fin 3, c.get j ≠ -(k : Int))
    (fuels : List Nat) (fuel : Nat) :
    (((Solver.runCalls fuels s₀).states_.getD k default).options = []) ∧
    ((Solver.NextAssignment fuel (Solver.runCalls fuels s₀)).1 = none ∨
      (Solver.NextAssignment fuel (Solver.runCalls fuels s₀)).1 = some []) ∧
    (((Solver.NextAssignment fuel (Solver.runCalls fuels s₀)).2.states_.getD k
      default).options = []) := by
  have hQ0 : QInv k s₀ := make_Q struc n cs me s₀ k hmk hk hnomem
  have hQ : QInv k (Solver.runCalls fuels s₀) := runCalls_Q k fuels s₀ hQ0
  obtain ⟨hres, hQ'⟩ := NextAssignment_Q k fuel (Solver.runCalls fuels s₀) hQ
  exact ⟨hQ.2.2.2.2, hres, hQ'.2.2.2.2⟩

/-- C7 (counterexample): `NextAssignment` does mutate the `valid_` flag.  On a
solver over the empty index with one variable constrained by `(0,0,0)`, the
solver is valid after construction but invalid after one exhausting call. -/
theorem c7_counterexample :
    ((Solver.make Structure.empty 1 [⟨0, 0, 0⟩] [[]]).getD default).valid_ = true ∧
    (Solver.NextAssignment 3
      ((Solver.make Structure.empty 1 [⟨0, 0, 0⟩] [[]]).getD default)).2.valid_ = false := by
  exact ⟨by decide, by decide⟩

/-- C7 (amended): frame condition on iteration.  A `NextAssignment` call
leaves the referenced fact index, the variable count, the stored constraints,
`var_to_constraints_` and `may_equal_` unchanged — but not the `valid_` flag,
which the loop clears on exhaustion. -/
theorem c7_frame_condition_amended (fuel : Nat) (s : Solver) :
    (Solver.NextAssignment fuel s).2.structure_ = s.structure_ ∧
    (Solver.NextAssignment fuel s).2.n_variables = s.n_variables ∧
    (Solver.NextAssignment fuel s).2.constraints_ = s.constraints_ ∧
    (Solver.NextAssignment fuel s).2.var_to_constraints_ = s.var_to_constraints_ ∧
    (Solver.NextAssignment fuel s).2.may_equal_ = s.may_equal_ := by
  unfold Solver.NextAssignment
  by_cases hg : s.valid_ = false ∨ s.n_variables = 0
  · rw [if_pos hg]
    exact ⟨rfl, rfl, rfl, rfl, rfl⟩
  · rw [if_neg hg]
    exact loop_frame fuel s

/-- C8 (counterexample): a `may_equal` list whose entry `may_equal[0]`
contains the index `5 ≥ 0` is accepted: construction succeeds, no abort. -/
theorem c8_counterexample :
    (Solver.make Structure.empty 1 [] [[5]]).isSome = true := by decide

/-- C8 (amended): the constructor never inspects `may_equal`; whether
construction succeeds is independent of the `may_equal` argument, so no
malformed entry can cause an abort. -/
theorem c8_mayequal_never_aborts (struc : Structure) (n : Nat) (cs : List Triplet)
    (me me' : List (List Nat)) :
    (Solver.make struc n cs me).isSome = (Solver.make struc n cs me').isSome := by
  unfold Solver.make
  by_cases hn : n = 0
  · rw [if_pos hn, if_pos hn]
  · rw [if_neg hn, if_neg hn]
    cases hbuild : Solver.buildLoop struc n cs [] (List.replicate n []) with
    | none => rfl
    | some p =>
      obtain ⟨valid, kept, vtc⟩ := p
      rfl

/-- C2 (refuted): enumeration is not complete.  With facts `{(1,1,1)}`, two
variables, the single constraint `(0,0,0)` (mentioning only variable 0) and
`may_equal = [{}, {0}]`, the assignment `[1, 1]` makes every constraint a fact,
is positive, and respects the inequality restrictions, yet the very first
`NextAssignment` call on the validly constructed solver returns the empty
result: variable 1 occurs in no constraint, so its option set is empty and
nothing is ever enumerated. -/
theorem c2_completeness_counterexample :
    ((Structure.runOps [Op.add ⟨1, 1, 1⟩] Structure.empty).getD Structure.empty).IsTrue
      (substFull [1, 1] ⟨0, 0, 0⟩) ∧
    (∀ k : Nat, k < 2 → ∀ j : Nat, j < k → j ∉ ([[], [0]] : List (List Nat)).getD k [] →
      ([1, 1] : List Int).getD j 0 ≠ ([1, 1] : List Int).getD k 0) ∧
    (∀ i : Nat, i < 2 → 0 < ([1, 1] : List Int).getD i 0) ∧
    (Solver.make ((Structure.runOps [Op.add ⟨1, 1, 1⟩] Structure.empty).getD Structure.empty)
      2 [⟨0, 0, 0⟩] [[], [0]]).isSome = true ∧
    ((Solver.make ((Structure.runOps [Op.add ⟨1, 1, 1⟩] Structure.empty).getD
      Structure.empty) 2 [⟨0, 0, 0⟩] [[], [0]]).getD default).valid_ = true ∧
    (Solver.NextAssignment 20
      ((Solver.make ((Structure.runOps [Op.add ⟨1, 1, 1⟩] Structure.empty).getD
        Structure.empty) 2 [⟨0, 0, 0⟩] [[], [0]]).getD default)).1 = some [] := by
  decide

theorem c1_witness :
    validOps [Op.add ⟨1, 1, 1⟩] [] ∧
    Structure.runOps [Op.add ⟨1, 1, 1⟩] Structure.empty =
      some ((Structure.runOps [Op.add ⟨1, 1, 1⟩] Structure.empty).getD Structure.empty) ∧
    Solver.make ((Structure.runOps [Op.add ⟨1, 1, 1⟩] Structure.empty).getD Structure.empty)
        1 [⟨0, 0, 0⟩] [[]] =
      some ((Solver.make ((Structure.runOps [Op.add ⟨1, 1, 1⟩] Structure.empty).getD
        Structure.empty) 1 [⟨0, 0, 0⟩] [[]]).getD default) ∧
    (Solver.NextAssignment 10 (Solver.runCalls []
      ((Solver.make ((Structure.runOps [Op.add ⟨1, 1, 1⟩] Structure.empty).getD
        Structure.empty) 1 [⟨0, 0, 0⟩] [[]]).getD default))).1 = some [1] ∧
    ([1] : List Int) ≠ [] ∧
    (([1] : List Int).length = 1 ∧ (∀ i, i < 1 → 0 < ([1] : List Int).getD i 0) ∧
      ∀ c ∈ [(⟨0, 0, 0⟩ : Triplet)],
        ((Structure.runOps [Op.add ⟨1, 1, 1⟩] Structure.empty).getD
          Structure.empty).IsTrue (substFull [1] c)) :=
  ⟨by decide, option_eq_some_getD _ _ (by decide), option_eq_some_getD _ _ (by decide),
   by decide, by decide,
   c1_solver_soundness [Op.add ⟨1, 1, 1⟩] (by decide)
     ((Structure.runOps [Op.add ⟨1, 1, 1⟩] Structure.empty).getD Structure.empty)
     (option_eq_some_getD _ _ (by decide)) 1 [⟨0, 0, 0⟩] [[]]
     ((Solver.make ((Structure.runOps [Op.add ⟨1, 1, 1⟩] Structure.empty).getD Structure.empty) 1 [⟨0, 0, 0⟩] [[]]).getD default)
     (option_eq_some_getD _ _ (by decide)) [] 10 [1] (by decide) (by decide)⟩

theorem c4_witness :
    validOps [Op.add ⟨1, 2, 2⟩, Op.add ⟨2, 2, 1⟩] [] ∧
    Structure.runOps [Op.add ⟨1, 2, 2⟩, Op.add ⟨2, 2, 1⟩] Structure.empty =
      some ((Structure.runOps [Op.add ⟨1, 2, 2⟩, Op.add ⟨2, 2, 1⟩]
        Structure.empty).getD Structure.empty) ∧
    Solver.make ((Structure.runOps [Op.add ⟨1, 2, 2⟩, Op.add ⟨2, 2, 1⟩]
        Structure.empty).getD Structure.empty) 2 [⟨0, 2, -1⟩] [[], []] =
      some ((Solver.make ((Structure.runOps [Op.add ⟨1, 2, 2⟩, Op.add ⟨2, 2, 1⟩]
        Structure.empty).getD Structure.empty) 2 [⟨0, 2, -1⟩] [[], []]).getD default) ∧
    (Solver.NextAssignment 10 (Solver.runCalls []
      ((Solver.make ((Structure.runOps [Op.add ⟨1, 2, 2⟩, Op.add ⟨2, 2, 1⟩]
        Structure.empty).getD Structure.empty) 2 [⟨0, 2, -1⟩]
        [[], []]).getD default))).1 = some [1, 2] ∧
    ([1, 2] : List Int) ≠ [] ∧ 0 < 1 ∧ 1 < 2 ∧
    (0 : Nat) ∉ ([[], []] : List (List Nat)).getD 1 [] ∧
    ([1, 2] : List Int).getD 0 0 ≠ ([1, 2] : List Int).getD 1 0 :=
  ⟨by decide, option_eq_some_getD _ _ (by decide), option_eq_some_getD _ _ (by decide),
   by decide, by decide, by decide, by decide, by decide,
   c4_inequality_enforcement [Op.add ⟨1, 2, 2⟩, Op.add ⟨2, 2, 1⟩] (by decide)
     ((Structure.runOps [Op.add ⟨1, 2, 2⟩, Op.add ⟨2, 2, 1⟩] Structure.empty).getD Structure.empty)
     (option_eq_some_getD _ _ (by decide)) 2 [⟨0, 2, -1⟩] [[], []]
     ((Solver.make ((Structure.runOps [Op.add ⟨1, 2, 2⟩, Op.add ⟨2, 2, 1⟩] Structure.empty).getD Structure.empty) 2 [⟨0, 2, -1⟩] [[], []]).getD default)
     (option_eq_some_getD _ _ (by decide)) [] 10 [1, 2] (by decide) (by decide)
     0 1 (by decide) (by decide) (by decide)⟩

theorem c5_witness :
    Solver.make ((Structure.runOps [Op.add ⟨1, 1, 1⟩] Structure.empty).getD Structure.empty)
        1 [⟨2, 2, 2⟩, ⟨0, 0, 0⟩] [[]] =
      some ((Solver.make ((Structure.runOps [Op.add ⟨1, 1, 1⟩] Structure.empty).getD
        Structure.empty) 1 [⟨2, 2, 2⟩, ⟨0, 0, 0⟩] [[]]).getD default) ∧
    (⟨2, 2, 2⟩ : Triplet) ∈ [(⟨2, 2, 2⟩ : Triplet), ⟨0, 0, 0⟩] ∧
    (∀ j : Fin 3, 0 < (⟨2, 2, 2⟩ : Triplet).get j) ∧
    ¬ ((Structure.runOps [Op.add ⟨1, 1, 1⟩] Structure.empty).getD Structure.empty).IsTrue
      ⟨2, 2, 2⟩ ∧
    (((Solver.make ((Structure.runOps [Op.add ⟨1, 1, 1⟩] Structure.empty).getD
        Structure.empty) 1 [⟨2, 2, 2⟩, ⟨0, 0, 0⟩] [[]]).getD default).valid_ = false ∧
      ∀ (fuels : List Nat) (fuel : Nat),
        (Solver.NextAssignment fuel (Solver.runCalls fuels
          ((Solver.make ((Structure.runOps [Op.add ⟨1, 1, 1⟩] Structure.empty).getD
            Structure.empty) 1 [⟨2, 2, 2⟩, ⟨0, 0, 0⟩] [[]]).getD
            default))).1 = some []) :=
  ⟨option_eq_some_getD _ _ (by decide), by decide, by decide, by decide,
   c5_ground_constraint_infeasibility ((Structure.runOps [Op.add ⟨1, 1, 1⟩] Structure.empty).getD Structure.empty)
     1 [⟨2, 2, 2⟩, ⟨0, 0, 0⟩] [[]]
     ((Solver.make ((Structure.runOps [Op.add ⟨1, 1, 1⟩] Structure.empty).getD Structure.empty) 1 [⟨2, 2, 2⟩, ⟨0, 0, 0⟩] [[]]).getD default)
     (option_eq_some_getD _ _ (by decide)) ⟨2, 2, 2⟩ (by decide) (by decide) (by decide)⟩

theorem c6_witness :
    validOps [Op.add ⟨1, 1, 1⟩] [] ∧
    Structure.runOps [Op.add ⟨1, 1, 1⟩] Structure.empty =
      some ((Structure.runOps [Op.add ⟨1, 1, 1⟩] Structure.empty).getD Structure.empty) ∧
    Solver.make ((Structure.runOps [Op.add ⟨1, 1, 1⟩] Structure.empty).getD Structure.empty)
        1 [⟨0, 0, 0⟩] [[]] =
      some ((Solver.make ((Structure.runOps [Op.add ⟨1, 1, 1⟩] Structure.empty).getD
        Structure.empty) 1 [⟨0, 0, 0⟩] [[]]).getD default) ∧
    (Solver.runCalls [] ((Solver.make ((Structure.runOps [Op.add ⟨1, 1, 1⟩]
      Structure.empty).getD Structure.empty) 1 [⟨0, 0, 0⟩] [[]]).getD
      default)).valid_ = true ∧
    ((Solver.runCalls [] ((Solver.make ((Structure.runOps [Op.add ⟨1, 1, 1⟩]
        Structure.empty).getD Structure.empty) 1 [⟨0, 0, 0⟩] [[]]).getD
        default)).WCInv ∧
      (∀ v : Int, 0 < v →
        0 ≤ (Solver.runCalls [] ((Solver.make ((Structure.runOps [Op.add ⟨1, 1, 1⟩]
          Structure.empty).getD Structure.empty) 1 [⟨0, 0, 0⟩] [[]]).getD
          default)).current_index_ →
        ((Solver.runCalls [] ((Solver.make ((Structure.runOps [Op.add ⟨1, 1, 1⟩]
          Structure.empty).getD Structure.empty) 1 [⟨0, 0, 0⟩] [[]]).getD
          default)).Assign v).WCInv) ∧
      (0 ≤ (Solver.runCalls [] ((Solver.make ((Structure.runOps [Op.add ⟨1, 1, 1⟩]
          Structure.empty).getD Structure.empty) 1 [⟨0, 0, 0⟩] [[]]).getD
          default)).current_index_ →
        ((Solver.runCalls [] ((Solver.make ((Structure.runOps [Op.add ⟨1, 1, 1⟩]
          Structure.empty).getD Structure.empty) 1 [⟨0, 0, 0⟩] [[]]).getD
          default)).UnAssign).WCInv)) :=
  ⟨by decide, option_eq_some_getD _ _ (by decide), option_eq_some_getD _ _ (by decide),
   by decide,
   c6_working_constraints_invariant [Op.add ⟨1, 1, 1⟩] (by decide)
     ((Structure.runOps [Op.add ⟨1, 1, 1⟩] Structure.empty).getD Structure.empty)
     (option_eq_some_getD _ _ (by decide)) 1 [⟨0, 0, 0⟩] [[]]
     ((Solver.make ((Structure.runOps [Op.add ⟨1, 1, 1⟩] Structure.empty).getD Structure.empty) 1 [⟨0, 0, 0⟩] [[]]).getD default)
     (option_eq_some_getD _ _ (by decide)) [] (by decide)⟩

theorem c9_witness :
    Solver.make ((Structure.runOps [Op.add ⟨1, 1, 1⟩] Structure.empty).getD Structure.empty)
        2 [⟨0, 0, 0⟩] [[], [0]] =
      some ((Solver.make ((Structure.runOps [Op.add ⟨1, 1, 1⟩] Structure.empty).getD
        Structure.empty) 2 [⟨0, 0, 0⟩] [[], [0]]).getD default) ∧
    1 < 2 ∧
    (∀ c ∈ [(⟨0, 0, 0⟩ : Triplet)], ∀ j : Fin 3, c.get j ≠ -(1 : Int)) ∧
    ((((Solver.runCalls [] ((Solver.make ((Structure.runOps [Op.add ⟨1, 1, 1⟩]
        Structure.empty).getD Structure.empty) 2 [⟨0, 0, 0⟩] [[], [0]]).getD
        default)).states_.getD 1 default).options = []) ∧
      ((Solver.NextAssignment 10 (Solver.runCalls [] ((Solver.make
          ((Structure.runOps [Op.add ⟨1, 1, 1⟩] Structure.empty).getD Structure.empty)
          2 [⟨0, 0, 0⟩] [[], [0]]).getD default))).1 = none ∨
        (Solver.NextAssignment 10 (Solver.runCalls [] ((Solver.make
          ((Structure.runOps [Op.add ⟨1, 1, 1⟩] Structure.empty).getD Structure.empty)
          2 [⟨0, 0, 0⟩] [[], [0]]).getD default))).1 = some []) ∧
      (((Solver.NextAssignment 10 (Solver.runCalls [] ((Solver.make
          ((Structure.runOps [Op.add ⟨1, 1, 1⟩] Structure.empty).getD Structure.empty)
          2 [⟨0, 0, 0⟩] [[], [0]]).getD default))).2.states_.getD 1
          default).options = [])) :=
  ⟨option_eq_some_getD _ _ (by decide), by decide, by decide,
   c9_unconstrained_variable_empty ((Structure.runOps [Op.add ⟨1, 1, 1⟩] Structure.empty).getD Structure.empty)
     2 [⟨0, 0, 0⟩] [[], [0]]
     ((Solver.make ((Structure.runOps [Op.add ⟨1, 1, 1⟩] Structure.empty).getD Structure.empty) 2 [⟨0, 0, 0⟩] [[], [0]]).getD default)
     (option_eq_some_getD _ _ (by decide)) 1 (by decide) (by decide) [] 10⟩
